import Mathlib

/-!
Verification of the `EclassParser` HTML extraction component of AutoLMS
(`app/services/eclass_parser.py`).

The Python code parses HTML with BeautifulSoup.  We embed it shallowly:

* an HTML document is a forest of nodes (`Node` / `Forest`), which is what
  `BeautifulSoup(html, "html.parser")` produces for any input string
  (that parser is total, so quantifying over all forests covers all input
  strings);
* BeautifulSoup operations (`find_all`, `find`, `select_one`, `.text`,
  `get_text(strip=True)`, `.string`, attribute lookup, css class matching)
  become total tree traversals;
* the concrete `re.search` patterns used by the code are modelled by
  dedicated leftmost-match scanners over `List Char` (`scanLit`), faithful
  to Python's leftmost-then-greedy semantics for these patterns
  (character classes restricted to ASCII, which is what the scanned
  tokens -- digits, quotes, ampersands -- are);
* Python exceptions are explicit: fallible steps live in
  `Except PyError`, a `try/except` block that returns a default becomes
  `pyTry`.

Record and function names follow the Python source (leading underscores
dropped where Lean style requires).
-/

namespace AutoLMS

/-- The exception kinds the modelled code can raise. -/
inductive PyError where
  | attributeError : PyError
  | valueError : PyError
  | keyError : PyError
  | typeError : PyError
deriving DecidableEq

/-- Models a Python `try: body except Exception: return dflt` block. -/
def pyTry {α : Type} (body : Except PyError α) (dflt : α) : Except PyError α :=
  match body with
  | .ok v => .ok v
  | .error _ => .ok dflt

/-- Every `pyTry` block returns normally. -/
theorem pyTry_isOk {α : Type} (body : Except PyError α) (dflt : α) :
    ∃ r, pyTry body dflt = .ok r := by
  cases body with
  | ok v => exact ⟨v, rfl⟩
  | error e => exact ⟨dflt, rfl⟩

/-! ## Characters and strings -/

/-- The single-quote character (used heavily in the scanned patterns). -/
def qc : Char := '\''

/-- The double-quote character. -/
def dq : Char := '"'

/-- Python `str` whitespace (ASCII part), as used by `str.strip()` and
BeautifulSoup's `get_text(strip=True)`. -/
def isPySpace (c : Char) : Bool :=
  (c == ' ') || (c == '\t') || (c == '\n') || (c == '\r') || (c == '\x0b') || (c == '\x0c')

/-- Strip characters satisfying `p` from both ends of a character list. -/
def stripEnds (p : Char → Bool) (l : List Char) : List Char :=
  ((l.dropWhile p).reverse.dropWhile p).reverse

/-- Python `str.strip()` (no argument: whitespace). -/
def pyStrip (s : String) : String :=
  ⟨stripEnds isPySpace s.data⟩

/-- Python `str.strip(") ")`, used on the course-code fragment. -/
def stripParenSpace (s : String) : String :=
  ⟨stripEnds (fun c => (c == ')') || (c == ' ')) s.data⟩

/-- Python `str.startswith`. -/
def litPre : List Char → List Char → Bool
  | [], _ => true
  | _ :: _, [] => false
  | a :: as, b :: bs => (a == b) && litPre as bs

/-- `pyStartsWith p s` models Python `s.startswith(p)`. -/
def pyStartsWith (p s : String) : Bool :=
  litPre p.data s.data

/-- Split on whitespace runs, as Python `str.split()` / the multi-valued
`class` attribute of BeautifulSoup. -/
def wsSplitAux : List Char → List Char → List String
  | [], acc => if acc.isEmpty then [] else [⟨acc.reverse⟩]
  | c :: cs, acc =>
    if isPySpace c then
      if acc.isEmpty then wsSplitAux cs [] else (⟨acc.reverse⟩ : String) :: wsSplitAux cs []
    else wsSplitAux cs (c :: acc)

/-- Whitespace-split of a string. -/
def wsSplit (s : String) : List String :=
  wsSplitAux s.data []

/-- Python `int` on a (nonempty) digit string. -/
def digitsToNat (l : List Char) : Nat :=
  l.foldl (fun a c => a * 10 + (c.toNat - 48)) 0

/-! ## The leftmost-match scanners modelling the `re.search` calls

Each pattern used by the code has the form `LITERAL` followed by a suffix
matcher that, for these patterns, cannot backtrack past the literal: the
searched group is a maximal run of characters from a class that excludes
the character terminating it.  `scanLit lit after` tries the pattern at
every start position, leftmost first, exactly like `re.search`. -/

/-- Try the pattern `lit ++ (after)` at the head of `l`. -/
def tryLit (lit : List Char) (after : List Char → Option (List Char))
    (l : List Char) : Option (List Char) :=
  if litPre lit l then after (l.drop lit.length) else none

/-- Leftmost search for `lit` followed by a successful `after` match. -/
def scanLit (lit : List Char) (after : List Char → Option (List Char)) :
    List Char → Option (List Char)
  | [] => tryLit lit after []
  | c :: cs =>
    match tryLit lit after (c :: cs) with
    | some r => some r
    | none => scanLit lit after cs

/-- `hasSubL needle hay` models Python `needle in hay` on strings. -/
def hasSubL (needle hay : List Char) : Bool :=
  (scanLit needle (fun r => some r) hay).isSome

/-- Substring containment for `String`s (Python `in`). -/
def hasSub (needle hay : String) : Bool :=
  hasSubL needle.data hay.data

/-- Suffix matcher for `(\d+)`: a nonempty maximal digit run. -/
def afterDigits (rest : List Char) : Option (List Char) :=
  if (rest.takeWhile Char.isDigit).isEmpty then none
  else some (rest.takeWhile Char.isDigit)

/-- Suffix matcher for `([^&]+)`: a nonempty maximal run without ampersand. -/
def afterNonAmp (rest : List Char) : Option (List Char) :=
  if (rest.takeWhile (fun c => c != '&')).isEmpty then none
  else some (rest.takeWhile (fun c => c != '&'))

/-- Suffix matcher for `([^']+)'\)` in `pageMove\('([^']+)'\)`:
a nonempty run without single quote, then the closing quote-paren. -/
def afterQuoteRunClose (rest : List Char) : Option (List Char) :=
  if (rest.takeWhile (fun c => c != qc)).isEmpty then none
  else if litPre [qc, ')'] (rest.drop (rest.takeWhile (fun c => c != qc)).length) then
    some (rest.takeWhile (fun c => c != qc))
  else none

/-- Suffix matcher for `([^']+)'` in `pageMove\('([^']+)'(?:,\s*event)?`:
the optional tail group imposes no requirement after the closing quote. -/
def afterQuoteRun (rest : List Char) : Option (List Char) :=
  if (rest.takeWhile (fun c => c != qc)).isEmpty then none
  else if litPre [qc] (rest.drop (rest.takeWhile (fun c => c != qc)).length) then
    some (rest.takeWhile (fun c => c != qc))
  else none

/-- Suffix matcher for `\s*:\s*["\']([^"\',]+)` in the inline-script
`CONTENT_SEQ` pattern. -/
def afterScriptColon (rest : List Char) : Option (List Char) :=
  match rest.dropWhile isPySpace with
  | c :: r2 =>
    if c = ':' then
      match r2.dropWhile isPySpace with
      | q :: r4 =>
        if (q == dq) || (q == qc) then
          if (r4.takeWhile (fun ch => (ch != dq) && (ch != qc) && (ch != ','))).isEmpty then none
          else some (r4.takeWhile (fun ch => (ch != dq) && (ch != qc) && (ch != ',')))
        else none
      | [] => none
    else none
  | [] => none

/-- `re.search(key + r"(\d+)", s)`, returning the captured digits. -/
def searchParamDigits (key : String) (s : String) : Option String :=
  (scanLit key.data afterDigits s.data).map (fun l => (⟨l⟩ : String))

/-- `re.search(key + r"([^&]+)", s)`, returning the captured run. -/
def searchNonAmp (key : String) (s : String) : Option String :=
  (scanLit key.data afterNonAmp s.data).map (fun l => (⟨l⟩ : String))

/-- The literal part of the `pageMove` patterns: `pageMove('`. -/
def pmChars : List Char := ("pageMove(").data ++ [qc]

/-- `re.search(r"pageMove\('([^']+)'\)", s)` (notice list, assignment list). -/
def searchPageMoveClose (s : String) : Option String :=
  (scanLit pmChars afterQuoteRunClose s.data).map (fun l => (⟨l⟩ : String))

/-- `re.search(r"pageMove\('([^']+)'(?:,\s*event)?", s)` (material list). -/
def searchPageMove (s : String) : Option String :=
  (scanLit pmChars afterQuoteRun s.data).map (fun l => (⟨l⟩ : String))

/-- `re.search(r"CONTENT_SEQ\s*:\s*[\"\']([^\"\',]+)", s)` (material detail
inline script). -/
def searchContentSeqScript (s : String) : Option String :=
  (scanLit ("CONTENT_SEQ").data afterScriptColon s.data).map (fun l => (⟨l⟩ : String))

/-- `re.search(r"\d+", s)` (views column). -/
def searchAnyDigits (s : String) : Option String :=
  (scanLit [] afterDigits s.data).map (fun l => (⟨l⟩ : String))

/-! ## The HTML document model -/

mutual
/-- One parsed HTML node: a text node or an element with tag, attributes
(in document order, first occurrence wins on lookup) and children. -/
inductive Node where
  | text : String → Node
  | elem : String → List (String × String) → Forest → Node

/-- A list of sibling nodes. -/
inductive Forest where
  | nil : Forest
  | cons : Node → Forest → Forest
end

/-- Convert a Lean list of nodes into a `Forest` (for building examples). -/
def forest : List Node → Forest
  | [] => .nil
  | n :: ns => .cons n (forest ns)

/-- Attribute lookup on an element node (BeautifulSoup `tag.get(key)`). -/
def Node.attr : Node → String → Option String
  | .text _, _ => none
  | .elem _ attrs _, key =>
    (attrs.find? (fun p => p.1 == key)).map (fun p => p.2)

/-- BeautifulSoup `tag.get(key, dflt)`. -/
def Node.attrD (n : Node) (key dflt : String) : String :=
  (n.attr key).getD dflt

/-- Is this an element node with the given tag? -/
def Node.tagIs : Node → String → Bool
  | .text _, _ => false
  | .elem t _ _, name => t == name

/-- Is this an element node at all? -/
def Node.isElem : Node → Bool
  | .text _ => false
  | .elem _ _ _ => true

/-- The css classes of a node (BeautifulSoup splits `class` on whitespace). -/
def Node.classes (n : Node) : List String :=
  match n.attr ("class") with
  | some v => wsSplit v
  | none => []

/-- Does the node's `class` list contain `c` (css selector `.c`,
`find(..., class_=c)`)? -/
def Node.hasClass (n : Node) (c : String) : Bool :=
  (n.classes).contains c

mutual
/-- All descendants of a node in document order (BeautifulSoup
`.descendants`, restricted to the node's subtree, excluding the node). -/
def Node.descendants : Node → List Node
  | .text _ => []
  | .elem _ _ c => Forest.allNodes c

/-- All nodes of a forest in document order: each node precedes its
descendants (the document order of `soup.descendants`). -/
def Forest.allNodes : Forest → List Node
  | .nil => []
  | .cons n ns => n :: (Node.descendants n ++ Forest.allNodes ns)
end

/-- `soup.find_all(...)` with an arbitrary node predicate. -/
def findAllTop (soup : Forest) (p : Node → Bool) : List Node :=
  (Forest.allNodes soup).filter p

/-- `soup.find(...)` / `soup.select_one(...)`: first match in document
order. -/
def findTop (soup : Forest) (p : Node → Bool) : Option Node :=
  (findAllTop soup p).head?

/-- `tag.find_all(...)`: matches among the node's descendants. -/
def Node.findAllD (n : Node) (p : Node → Bool) : List Node :=
  n.descendants.filter p

/-- `tag.find(...)` / `tag.select_one(...)`. -/
def Node.findD (n : Node) (p : Node → Bool) : Option Node :=
  (n.findAllD p).head?

mutual
/-- The text-node strings below a node, in document order
(BeautifulSoup `.strings`; for a text node, the string itself). -/
def Node.strings : Node → List String
  | .text s => [s]
  | .elem _ _ c => Forest.strings c

/-- Strings of a forest. -/
def Forest.strings : Forest → List String
  | .nil => []
  | .cons n ns => Node.strings n ++ Forest.strings ns
end

/-- BeautifulSoup `.text` / `get_text()`: concatenation of all strings. -/
def Node.getText (n : Node) : String :=
  String.join n.strings

/-- BeautifulSoup `get_text(strip=True)`: each string is stripped and
empty results are dropped before concatenation. -/
def Node.getTextStrip (n : Node) : String :=
  String.join ((n.strings.map pyStrip).filter (fun s => !s.data.isEmpty))

/-- Python `.text.strip()`. -/
def Node.textStrip (n : Node) : String :=
  pyStrip n.getText

/-- BeautifulSoup `.string`: the single string below a chain of
single-child tags, else `None`. -/
def Node.stringProp : Node → Option String
  | .text s => some s
  | .elem _ _ (.cons (.text s) .nil) => some s
  | .elem _ _ (.cons (.elem t a c) .nil) => Node.stringProp (.elem t a c)
  | .elem _ _ _ => none

mutual
/-- `for br in X.find_all('br'): br.replace_with('\n')`: every `br`
element in the subtree is replaced by a newline text node. -/
def Node.replaceBr : Node → Node
  | .text s => .text s
  | .elem t a c => .elem t a (Forest.replaceBr c)

/-- Forest version of `Node.replaceBr`. -/
def Forest.replaceBr : Forest → Forest
  | .nil => .nil
  | .cons n ns =>
    match n with
    | .elem t a c =>
      if t == "br" then .cons (.text ("\n")) (Forest.replaceBr ns)
      else .cons (.elem t a (Forest.replaceBr c)) (Forest.replaceBr ns)
    | .text s => .cons (.text s) (Forest.replaceBr ns)
end

mutual
/-- `for p in X.find_all('p'): p.insert_after('\n')`: a newline text node
is inserted after every `p` element in the subtree. -/
def Node.insertAfterP : Node → Node
  | .text s => .text s
  | .elem t a c => .elem t a (Forest.insertAfterP c)

/-- Forest version of `Node.insertAfterP`. -/
def Forest.insertAfterP : Forest → Forest
  | .nil => .nil
  | .cons n ns =>
    match n with
    | .elem t a c =>
      if t == "p" then
        .cons (.elem t a (Forest.insertAfterP c)) (.cons (.text ("\n")) (Forest.insertAfterP ns))
      else .cons (.elem t a (Forest.insertAfterP c)) (Forest.insertAfterP ns)
    | .text s => .cons (.text s) (Forest.insertAfterP ns)
end

/-- The `<br>`-to-newline and `<p>`-suffix-newline normalisation performed
by `parse_notice_detail` / `parse_assignment_detail` before text
extraction. -/
def Node.normalizeBreaks (n : Node) : Node :=
  Node.insertAfterP (Node.replaceBr n)

mutual
/-- Python `str(tag)`: HTML serialisation of the subtree
(bs4 output-formatter details such as entity escaping and void-element
syntax are abstracted; no claim inspects this string's exact shape). -/
def Node.serialize : Node → String
  | .text s => s
  | .elem t a c =>
    ("<") ++ t ++ attrsText a ++ (">") ++ Forest.serialize c ++ ("</") ++ t ++ (">")

/-- Attributes rendered for `Node.serialize`. -/
def attrsText : List (String × String) → String
  | [] => ""
  | (k, v) :: rest => (" ") ++ k ++ ("=") ++ dq.toString ++ v ++ dq.toString ++ attrsText rest

/-- Children rendered for `Node.serialize`. -/
def Forest.serialize : Forest → String
  | .nil => ""
  | .cons n ns => Node.serialize n ++ Forest.serialize ns
end

/-- A text node used as an unreachable `List.getD` default below guarded
index accesses. -/
def dummyNode : Node := Node.text ""

/-- `:last-child` helper: no element node occurs in the rest of the
sibling list. -/
def Forest.noMoreElems : Forest → Bool
  | .nil => true
  | .cons n ns => (!n.isElem) && Forest.noMoreElems ns

mutual
/-- `row.select('td.number:last-child')`: descendants that are `td`
elements with class `number` and are the last element child of their
parent, in document order. -/
def Node.selectTdNumberLast : Node → List Node
  | .text _ => []
  | .elem _ _ c => Forest.selectTdNumberLast c

/-- Forest version of `Node.selectTdNumberLast`. -/
def Forest.selectTdNumberLast : Forest → List Node
  | .nil => []
  | .cons n ns =>
    (if n.tagIs ("td") && n.hasClass ("number") && Forest.noMoreElems ns then [n] else [])
      ++ Node.selectTdNumberLast n ++ Forest.selectTdNumberLast ns
end

/-! ## Result records (the dictionaries the Python code builds) -/

/-- One entry of `parse_courses`. -/
structure Course where
  id : Option String
  name : String
  code : String
  time : String
deriving DecidableEq

/-- One value of the `parse_course_menus` mapping. -/
structure MenuEntry where
  name : String
  url : String
deriving DecidableEq

/-- One entry of `parse_notice_list`.  `views` is `int(views)`. -/
structure Notice where
  number : String
  article_id : Option String
  title : String
  author : String
  date : String
  views : Nat
  url : String
deriving DecidableEq

/-- One entry of `parse_material_list` (the row guard ensures a present
article id and url). -/
structure Material where
  article_id : String
  title : String
  author : String
  date : String
  url : String
  has_attachment : Bool
deriving DecidableEq

/-- One attachment record of `_extract_attachments`.  `content_seq` is
whatever was passed in (possibly Python `None`). -/
structure Attachment where
  name : String
  url : String
  file_seq : String
  content_seq : Option String
deriving DecidableEq

/-- One weekly row of the syllabus (`주차`, `내용`, `비고`). -/
structure WeekEntry where
  week : String
  content : String
  note : String
deriving DecidableEq

/-- The `parse_syllabus` result: the four fixed sections. -/
structure Syllabus where
  basic : List (String × String)
  instructor : List (String × String)
  plan : List (String × String)
  weekly : List WeekEntry
deriving DecidableEq

/-- The `parse_notice_detail` dictionary; `none` / `[]` model absent keys. -/
structure NoticeDetail where
  content : Option String
  attachments : List Attachment
deriving DecidableEq

/-- The `parse_material_detail` dictionary. -/
structure MaterialDetail where
  content : Option String
  content_html : Option String
  attachments : List Attachment
deriving DecidableEq

/-- The `parse_assignment_detail` dictionary. -/
structure AssignmentDetail where
  content : Option String
  attachments : List Attachment
deriving DecidableEq

/-- One entry of `parse_assignment_list`. -/
structure Assignment where
  assignment_id : Option String
  title : String
  start_date : String
  end_date : String
  status : String
  url : String
deriving DecidableEq

/-- A raw input document: the original string (some extractors run
`re.search` directly on it) together with its BeautifulSoup parse. -/
structure Doc where
  raw : String
  dom : Forest

/-- Python-dict insertion: update in place if the key exists, else append
(insertion order preserved). -/
def dictInsert {α : Type} : List (String × α) → String → α → List (String × α)
  | [], k, v => [(k, v)]
  | (k', v') :: rest, k, v =>
    if k' == k then (k, v) :: rest else (k', v') :: dictInsert rest k v

/-! ## EclassParser -/

namespace EclassParser

/-- The portal base url prepended to relative detail urls. -/
def baseUrl : String := "https://eclass.seoultech.ac.kr"

/-- The attachment-listing endpoint used by `parse_material_detail`. -/
def efileListUrl : String := "https://eclass.seoultech.ac.kr/ilos/co/efile_list.acl"

/-! ### parse_courses -/

/-- The `find_all('li', style=lambda v: v and 'background: url' in v)`
filter. -/
def isCourseLi (n : Node) : Bool :=
  n.tagIs ("li") &&
    (match n.attr ("style") with
     | some v => (!v.data.isEmpty) && hasSub ("background: url") v
     | none => false)

/-- Python `full_name.rsplit('(', 1)`: text before the last `(` and,
when a `(` exists, the text after it. -/
def rsplitParen (l : List Char) : List Char × Option (List Char) :=
  if l.contains '(' then
    let after := (l.reverse.takeWhile (fun c => c != '(')).reverse
    (l.take (l.length - after.length - 1), some after)
  else (l, none)

/-- `_parse_course_element`: one course `li`.  (Nothing in its body can
raise, so its internal `try/except` never fires in the model.) -/
def parse_course_element (el : Node) : Option Course :=
  match el.findD (fun n => n.tagIs ("em") && n.hasClass ("sub_open")) with
  | none => none
  | some name_elem =>
    let course_id := name_elem.attr ("kj")
    let full_name := name_elem.textStrip
    let parts := rsplitParen full_name.data
    let course_name := pyStrip ⟨parts.1⟩
    let course_code :=
      match parts.2 with
      | some c => stripParenSpace ⟨c⟩
      | none => ""
    let course_time :=
      match el.findD (fun n => n.tagIs ("span")) with
      | some t => t.textStrip
      | none => ""
    some ⟨course_id, course_name, course_code, course_time⟩

/-- `parse_courses` (the whole body sits in a `try/except` returning `[]`). -/
def parse_courses (soup : Forest) : Except PyError (List Course) :=
  pyTry (.ok ((findAllTop soup isCourseLi).filterMap parse_course_element)) []

/-! ### parse_course_menus -/

/-- The fixed `menu_mapping` id table of `_get_specific_menus`. -/
def menuMapping : List (String × String) :=
  [ ("st_plan", "plan"),
    ("st_onlineclass", "online_lecture"),
    ("st_notice", "notice"),
    ("st_lecture_material", "lecture_material"),
    ("st_attendance", "attendance"),
    ("st_report", "assignment"),
    ("st_teamproject", "team_project"),
    ("st_exam", "exam") ]

/-- The `find_all('li', class_='course_menu_item')` filter. -/
def isMenuItem (n : Node) : Bool :=
  n.tagIs ("li") && n.hasClass ("course_menu_item")

/-- The loop body of `_get_specific_menus`: `link['href']` raises
`KeyError` when the anchor has no `href` attribute. -/
def menusGo : List Node → List (String × MenuEntry) →
    Except PyError (List (String × MenuEntry))
  | [], menus => .ok menus
  | item :: rest, menus =>
    match menuMapping.lookup (item.attrD ("id") "") with
    | none => menusGo rest menus
    | some key =>
      match item.findD (fun n => n.tagIs ("a")) with
      | none => menusGo rest menus
      | some link =>
        match link.attr ("href") with
        | none => .error .keyError
        | some menu_url => menusGo rest (dictInsert menus key ⟨link.textStrip, menu_url⟩)

/-- `_get_specific_menus`. -/
def get_specific_menus (soup : Forest) : Except PyError (List (String × MenuEntry)) :=
  menusGo (findAllTop soup isMenuItem) []

/-- `parse_course_menus` (whole-document `try/except` returning `{}`). -/
def parse_course_menus (soup : Forest) : Except PyError (List (String × MenuEntry)) :=
  pyTry (get_specific_menus soup) []

/-! ### parse_syllabus -/

/-- The four section keys of `syllabus_info`. -/
inductive SectionKey where
  | basic : SectionKey
  | instructor : SectionKey
  | plan : SectionKey
  | weekly : SectionKey
deriving DecidableEq

/-- The `find_all('div', style=...)` filter locating section headers. -/
def isSectionDiv (n : Node) : Bool :=
  n.tagIs ("div") &&
    (match n.attr ("style") with
     | some v => (!v.data.isEmpty) && hasSub ("padding-top") v && hasSub ("font-weight: bold") v
     | none => false)

/-- The `if/elif` chain mapping a section title to its key. -/
def sectionKey (title : String) : Option SectionKey :=
  if hasSub ("[수업기본정보]") title then some .basic
  else if hasSub ("[담당교수정보]") title then some .instructor
  else if hasSub ("[강의계획]") title then some .plan
  else if hasSub ("[주별강의계획]") title then some .weekly
  else none

/-- `_extract_table_info`: two-column key/value rows into a dict. -/
def extract_table_info_rows (rows : List Node) (info : List (String × String)) :
    List (String × String) :=
  rows.foldl
    (fun d row =>
      let cells := row.findAllD (fun n => n.tagIs ("th") || n.tagIs ("td"))
      if cells.length ≥ 2 then
        dictInsert d (cells.getD 0 dummyNode).textStrip (cells.getD 1 dummyNode).textStrip
      else d)
    info

/-- `_extract_table_info` on a table node. -/
def extract_table_info (table : Node) (info : List (String × String)) :
    List (String × String) :=
  extract_table_info_rows (table.findAllD (fun n => n.tagIs ("tr"))) info

/-- One row of the weekly table: `None` when the row has fewer than
three cells or its week/content pair is empty (the
`if not (week and content)` guard); otherwise the (week, content, note)
entry. -/
def weeklyRowEntry (row : Node) : Option WeekEntry :=
  if (row.findAllD (fun n => n.tagIs ("td"))).length ≥ 3 then
    if ((row.findAllD (fun n => n.tagIs ("td"))).getD 0 dummyNode).textStrip.data.isEmpty
        || ((row.findAllD (fun n => n.tagIs ("td"))).getD 1 dummyNode).textStrip.data.isEmpty
    then none
    else some
      ⟨((row.findAllD (fun n => n.tagIs ("td"))).getD 0 dummyNode).textStrip,
       ((row.findAllD (fun n => n.tagIs ("td"))).getD 1 dummyNode).textStrip,
       ((row.findAllD (fun n => n.tagIs ("td"))).getD 2 dummyNode).textStrip⟩
  else none

/-- The row loop of `_extract_weekly_syllabus`: `seen` is the
`seen_weeks` set (always empty at entry to the Python function, even when
the accumulated weekly list is not); a row whose week label was already
seen in this pass is skipped. -/
def weeklyGo : List Node → List String → List WeekEntry
  | [], _ => []
  | row :: rest, seen =>
    match weeklyRowEntry row with
    | none => weeklyGo rest seen
    | some e =>
      if seen.contains e.week then weeklyGo rest seen
      else e :: weeklyGo rest (e.week :: seen)

/-- `_extract_weekly_syllabus`: appends this table's rows (header dropped)
to the weekly list accumulated so far, deduplicating by week label within
this call only. -/
def extract_weekly_syllabus (table : Node) (weekly : List WeekEntry) : List WeekEntry :=
  weekly ++ weeklyGo ((table.findAllD (fun n => n.tagIs ("tr"))).drop 1) []

/-- The empty `syllabus_info`. -/
def emptySyllabus : Syllabus := ⟨[], [], [], []⟩

/-- `_extract_syllabus_info`: walk the section headers in document order;
`find_next('table')` is the first table after the header in the whole
document's pre-order traversal. -/
def extract_syllabus_info (soup : Forest) : Syllabus :=
  let all := Forest.allNodes soup
  all.enum.foldl
    (fun syl (i, n) =>
      if isSectionDiv n then
        match sectionKey n.textStrip with
        | none => syl
        | some k =>
          match (all.drop (i + 1)).find? (fun m => m.tagIs ("table")) with
          | none => syl
          | some table =>
            match k with
            | .basic => { syl with basic := extract_table_info table syl.basic }
            | .instructor => { syl with instructor := extract_table_info table syl.instructor }
            | .plan => { syl with plan := extract_table_info table syl.plan }
            | .weekly => { syl with weekly := extract_weekly_syllabus table syl.weekly }
      else syl)
    emptySyllabus

/-- `parse_syllabus` (whole-document `try/except` returning `{}`). -/
def parse_syllabus (soup : Forest) : Except PyError Syllabus :=
  pyTry (.ok (extract_syllabus_info soup)) emptySyllabus

/-! ### parse_notice_list -/

/-- `soup.find_all('tr', style="cursor: pointer;")` — exact style match. -/
def noticeRows (soup : Forest) : List Node :=
  findAllTop soup (fun n => n.tagIs ("tr") && (n.attr ("style") == some ("cursor: pointer;")))

/-- First `td.left` descendant (`row.select_one('td.left')`). -/
def selectTdLeft (row : Node) : Option Node :=
  row.findD (fun n => n.tagIs ("td") && n.hasClass ("left"))

/-- Lines 196–205 of the source: from the onclick string, the embedded
`pageMove` url and, when it carries `ARTL_NUM=<digits>`, the article id;
the base url is prepended only in that case. -/
def noticeExtractOnclick (onclick : String) : Option String × String :=
  if onclick.data.isEmpty then (none, "")
  else
    match searchPageMoveClose onclick with
    | none => (none, "")
    | some url =>
      match searchParamDigits ("ARTL_NUM=") url with
      | none => (none, url)
      | some aid => (some aid, baseUrl ++ url)

/-- One notice row (the body of the per-row `try`): raises
`AttributeError` when the row has no `td.left`, `ValueError` from
`int('')` when no views digits were found; returns `none` (no append)
when the row has fewer than five cells. -/
def parseNoticeRow (row : Node) : Except PyError (Option Notice) :=
  match selectTdLeft row with
  | none => .error .attributeError
  | some cell =>
    let onclick := cell.attrD ("onclick") ""
    let ids := noticeExtractOnclick onclick
    let cols := row.findAllD (fun n => n.tagIs ("td"))
    if cols.length ≥ 5 then
      let title :=
        match (cols.getD 2 dummyNode).findD
            (fun n => n.tagIs ("div") && n.hasClass ("subjt_top")) with
        | some t => t.getTextStrip
        | none => ""
      let authorViews :=
        match (cols.getD 2 dummyNode).findD
            (fun n => n.tagIs ("div") && n.hasClass ("subjt_bottom")) with
        | none => ("", "")
        | some bottom =>
          let spans := bottom.findAllD (fun n => n.tagIs ("span"))
          match spans with
          | [] => ("", "")
          | s0 :: restSpans =>
            let author := s0.getTextStrip
            if restSpans.isEmpty then (author, "")
            else
              match spans.getLast? with
              | some sl =>
                (author, (searchAnyDigits sl.getTextStrip).getD "")
              | none => (author, "")
      if authorViews.2.data.isEmpty then .error .valueError
      else
        .ok (some
          { number := (cols.getD 0 dummyNode).textStrip,
            article_id := ids.1,
            title := title,
            author := authorViews.1,
            date := (cols.getD 4 dummyNode).textStrip,
            views := digitsToNat authorViews.2.data,
            url := ids.2 })
    else .ok none

/-- The per-row `try/except ... continue`: an exception skips the row. -/
def noticeRowContribution (row : Node) : Option Notice :=
  match parseNoticeRow row with
  | .ok o => o
  | .error _ => none

/-- `parse_notice_list`: parse each pointer row, then reverse the fully
parsed list (`notices.reverse()`); the whole body sits in a `try/except`
returning `[]`. -/
def parse_notice_list (soup : Forest) : Except PyError (List Notice) :=
  pyTry
    (.ok
      (let rows := noticeRows soup
       if rows.isEmpty then []
       else (rows.filterMap noticeRowContribution).reverse))
    []

/-! ### _extract_url_from_onclick / _extract_article_id -/

/-- `_extract_url_from_onclick` (assignment rows). -/
def extract_url_from_onclick (onclick : String) : String :=
  match searchPageMoveClose onclick with
  | some u => baseUrl ++ u
  | none => ""

/-- `_extract_article_id`: `ARTL_NUM` first, then `NORCT_NUM`. -/
def extract_article_id (url : String) : Option String :=
  if url.data.isEmpty then none
  else
    match searchParamDigits ("ARTL_NUM=") url with
    | some v => some v
    | none => searchParamDigits ("NORCT_NUM=") url

/-! ### parse_notice_detail and _extract_attachments -/

/-- The `find_all('a', href=lambda h: h and 'efile_download.acl' in h)`
filter. -/
def isDownloadAnchor (n : Node) : Bool :=
  n.tagIs ("a") &&
    (match n.attr ("href") with
     | some h => (!h.data.isEmpty) && hasSub ("efile_download.acl") h
     | none => false)

/-- The download anchors of a document. -/
def downloadAnchors (soup : Forest) : List Node :=
  findAllTop soup isDownloadAnchor

/-- `_extract_attachments(html, content_seq)`: scan the download anchors,
skip those without a resolvable `FILE_SEQ`, prepend the base url to
relative hrefs.  (The Python function re-parses the html string it is
given; the model receives that string's parse directly.) -/
def extract_attachments (soup : Forest) (content_seq : Option String) : List Attachment :=
  (downloadAnchors soup).filterMap
    (fun a =>
      let file_url := a.attrD ("href") ""
      let file_name := a.textStrip
      match searchNonAmp ("FILE_SEQ=") file_url with
      | none => none
      | some file_seq =>
        some
          { name := file_name,
            url := if pyStartsWith ("http") file_url then file_url else baseUrl ++ file_url,
            file_seq := file_seq,
            content_seq := content_seq })

/-- `soup.find('td', class_='textviewer')` filter. -/
def isTextviewerTd (n : Node) : Bool :=
  n.tagIs ("td") && n.hasClass ("textviewer")

/-- `soup.find('table', class_='bbsview')` filter. -/
def isBbsviewTable (n : Node) : Bool :=
  n.tagIs ("table") && n.hasClass ("bbsview")

/-- The body of `parse_notice_detail` (nothing in it can raise in the
model: every lookup and index access is guarded in the source). -/
def noticeDetailBody (doc : Doc) : NoticeDetail :=
  let soup := doc.dom
  let csUrl := searchNonAmp ("CONTENT_SEQ=") doc.raw
  let content_seq :=
    match csUrl with
    | some v => some v
    | none =>
      match findTop soup (fun n => n.tagIs ("input") && (n.attr ("name") == some ("CONTENT_SEQ"))) with
      | some inp => inp.attr ("value")
      | none => none
  let textviewer :=
    match findTop soup isTextviewerTd with
    | some tv => some tv
    | none =>
      match findTop soup isBbsviewTable with
      | some table =>
        match (table.findAllD (fun n => n.tagIs ("tr"))).getLast? with
        | some lastRow => lastRow.findD (fun n => n.tagIs ("td"))
        | none => none
      | none => none
  match textviewer with
  | none => ⟨none, []⟩
  | some tv =>
    let content :=
      match tv.findD (fun n => n.tagIs ("div")) with
      | some d => (d.normalizeBreaks).getTextStrip
      | none => tv.getTextStrip
    ⟨some content, extract_attachments soup content_seq⟩

/-- `parse_notice_detail` (whole-document `try/except` returning `{}`). -/
def parse_notice_detail (doc : Doc) : Except PyError NoticeDetail :=
  pyTry (.ok (noticeDetailBody doc)) ⟨none, []⟩

/-! ### parse_material_list -/

/-- `soup.select('tr[style*="cursor: pointer"]')` — substring style match. -/
def materialRows (soup : Forest) : List Node :=
  findAllTop soup
    (fun n =>
      n.tagIs ("tr") &&
        (match n.attr ("style") with
         | some v => hasSub ("cursor: pointer") v
         | none => false))

/-- The pinned-notice guard:
`row.get('class') and any(cls in ['gongji', 'notitop'] for cls in ...)`. -/
def isPinnedRow (row : Node) : Bool :=
  (row.classes).any (fun c => (c == ("gongji")) || (c == ("notitop")))

/-- Lines 347–361 of the source: url (base-prefixed unless absolute) and
article id from the material row's onclick. -/
def materialExtractOnclick (onclick : String) : String × Option String :=
  if onclick.data.isEmpty then ("", none)
  else
    match searchPageMove onclick with
    | none => ("", none)
    | some url =>
      let detail_url := if pyStartsWith ("http") url then url else baseUrl ++ url
      (detail_url, searchParamDigits ("ARTL_NUM=") detail_url)

/-- One material row (per-row `try` body; nothing can raise in the model,
rows are skipped through the guards). -/
def parseMaterialRow (row : Node) : Option Material :=
  if isPinnedRow row then none
  else
    match selectTdLeft row with
    | none => none
    | some title_cell =>
      let onclick := title_cell.attrD ("onclick") ""
      match materialExtractOnclick onclick with
      | (_, none) => none
      | (detail_url, some article_id) =>
        if detail_url.data.isEmpty then none
        else
          let title :=
            match title_cell.findD (fun n => n.hasClass ("subjt_top")) with
            | some t => t.getTextStrip
            | none => ""
          let author :=
            match title_cell.findD (fun n => n.hasClass ("subjt_bottom")) with
            | some bottom =>
              match bottom.findD (fun n => n.tagIs ("span")) with
              | some sp => sp.getTextStrip
              | none => ""
            | none => ""
          let date :=
            match (Node.selectTdNumberLast row).head? with
            | some d => d.getTextStrip
            | none => ""
          let has_attachment :=
            !(row.findAllD (fun n => n.tagIs ("img") && n.hasClass ("download_icon"))).isEmpty
          some
            { article_id := article_id, title := title, author := author,
              date := date, url := detail_url, has_attachment := has_attachment }

/-- `parse_material_list` (whole-document `try/except` returning `[]`). -/
def parse_material_list (soup : Forest) : Except PyError (List Material) :=
  pyTry
    (.ok
      (let rows := materialRows soup
       if rows.isEmpty then []
       else rows.filterMap parseMaterialRow))
    []

/-! ### parse_material_detail -/

/-- The HTTP session collaborator: `post(url, form)` yields an exception,
a falsy response, or a response whose text parses to a forest. -/
def MdSession : Type := String → List (String × String) → Except PyError (Option Forest)

/-- The script loop of `parse_material_detail`: the first script whose
`.string` contains `CONTENT_SEQ` and matches the pattern wins (`break`);
a containing script without a pattern match does not stop the loop. -/
def scriptsScan : List Node → Option String
  | [] => none
  | s :: rest =>
    match s.stringProp with
    | some str =>
      if hasSub ("CONTENT_SEQ") str then
        match searchContentSeqScript str with
        | some v => some v
        | none => scriptsScan rest
      else scriptsScan rest
    | none => scriptsScan rest

/-- `CONTENT_SEQ` extraction from the document's inline scripts. -/
def findContentSeqScript (soup : Forest) : Option String :=
  scriptsScan (findAllTop soup (fun n => n.tagIs ("script")))

/-- The body of `parse_material_detail`: content from `td.textviewer`,
then — only when a `CONTENT_SEQ` token was found — one AJAX `post` whose
failure is absorbed by the inner `try/except`. -/
def materialDetailBody (session : MdSession) (soup : Forest) (course_id : String) :
    MaterialDetail :=
  let content_seq := findContentSeqScript soup
  let base : MaterialDetail :=
    match findTop soup isTextviewerTd with
    | some el => ⟨some el.getTextStrip, some el.serialize, []⟩
    | none => ⟨none, none, []⟩
  match content_seq with
  | none => base
  | some cs =>
    let form := [(("ky" : String), course_id), (("pf_st_flag" : String), ("2" : String)),
                 (("CONTENT_SEQ" : String), cs), (("encoding" : String), ("utf-8" : String))]
    let atts :=
      match session efileListUrl form with
      | .error _ => []
      | .ok none => []
      | .ok (some respDom) => extract_attachments respDom (some cs)
    if atts.isEmpty then base else { base with attachments := atts }

/-- `parse_material_detail` (whole-document `try/except` returning `{}`). -/
def parse_material_detail (session : MdSession) (soup : Forest) (course_id : String) :
    Except PyError MaterialDetail :=
  pyTry (.ok (materialDetailBody session soup course_id)) ⟨none, none, []⟩

/-! ### parse_assignment_list -/

/-- One assignment row: appended whenever it has at least seven cells
(no skip on a missing id). -/
def parseAssignmentRow (row : Node) : Option Assignment :=
  let cols := row.findAllD (fun n => n.tagIs ("td"))
  if cols.length < 7 then none
  else
    let detail_url := extract_url_from_onclick (row.attrD ("onclick") "")
    some
      { assignment_id := extract_article_id detail_url,
        title := (cols.getD 1 dummyNode).textStrip,
        start_date := (cols.getD 3 dummyNode).textStrip,
        end_date := (cols.getD 4 dummyNode).textStrip,
        status := (cols.getD 5 dummyNode).textStrip,
        url := detail_url }

/-- `parse_assignment_list` (whole-document `try/except` returning `[]`). -/
def parse_assignment_list (soup : Forest) : Except PyError (List Assignment) :=
  pyTry
    (.ok
      (match findTop soup (fun n => n.tagIs ("table") && n.hasClass ("table_topic")) with
       | none => []
       | some table =>
         ((table.findAllD (fun n => n.tagIs ("tr"))).drop 1).filterMap parseAssignmentRow))
    []

/-! ### parse_assignment_detail -/

/-- The body of `parse_assignment_detail`: when the `bbsview` table is
present, the content is computed and then the call
`self._extract_attachments(soup)` — which omits the required
`content_seq` positional argument of
`_extract_attachments(self, html_content, content_seq)` — raises
`TypeError`, discarding the dictionary built so far. -/
def assignmentDetailBody (soup : Forest) : Except PyError AssignmentDetail :=
  match findTop soup isBbsviewTable with
  | none => .ok ⟨none, []⟩
  | some table =>
    let _content : Option String :=
      match table.findD isTextviewerTd with
      | some td => some ((td.normalizeBreaks).getTextStrip)
      | none => none
    .error .typeError

/-- `parse_assignment_detail` (whole-document `try/except` returning `{}`). -/
def parse_assignment_detail (soup : Forest) : Except PyError AssignmentDetail :=
  pyTry (assignmentDetailBody soup) ⟨none, []⟩

end EclassParser

end AutoLMS


namespace AutoLMS

/-! ## Scanner lemmas: leftmost-match behaviour of `scanLit` -/

/-- A literal is a prefix of itself followed by anything. -/
theorem litPre_append_self (l r : List Char) : litPre l (l ++ r) = true := by
  induction l with
  | nil => rfl
  | cons a as ih => simp [litPre, ih]

/-- `litPre` decides list-prefix (existence of a completing suffix). -/
theorem litPre_true_iff : ∀ (l m : List Char), litPre l m = true ↔ ∃ r, l ++ r = m
  | [], m => by simp [litPre]
  | a :: as, [] => by simp [litPre]
  | a :: as, b :: bs => by
    simp only [litPre, Bool.and_eq_true, beq_iff_eq, litPre_true_iff as bs,
      List.cons_append, List.cons.injEq]
    constructor
    · rintro ⟨rfl, r, rfl⟩
      exact ⟨r, rfl, rfl⟩
    · rintro ⟨r, rfl, rfl⟩
      exact ⟨rfl, r, rfl⟩

/-- The head of the remainder decides where `takeWhile` stops. -/
def headFails (p : Char → Bool) : List Char → Bool
  | [] => true
  | c :: _ => !p c

/-- `takeWhile` over an append whose left part satisfies `p` and whose
right part immediately fails it. -/
theorem takeWhile_append_eq (p : Char → Bool) (xs ys : List Char)
    (hxs : xs.all p = true) (hys : headFails p ys = true) :
    (xs ++ ys).takeWhile p = xs := by
  induction xs with
  | nil =>
    cases ys with
    | nil => rfl
    | cons c cs =>
      simp only [headFails, Bool.not_eq_true'] at hys
      simp [List.takeWhile_cons, hys]
  | cons a as ih =>
    simp only [List.all_cons, Bool.and_eq_true] at hxs
    simp [List.takeWhile_cons, hxs.1, ih hxs.2]

/-- A pattern matching at the head yields a substring hit. -/
theorem hasSubL_of_litPre (lit l : List Char) (h : litPre lit l = true) :
    hasSubL lit l = true := by
  cases l with
  | nil =>
    cases lit with
    | nil => rfl
    | cons a as => simp [litPre] at h
  | cons c cs => simp [hasSubL, scanLit, tryLit, h]

/-- A substring hit survives prepending a character. -/
theorem hasSubL_cons_of (lit : List Char) (c : Char) (cs : List Char)
    (h : hasSubL lit cs = true) : hasSubL lit (c :: cs) = true := by
  unfold hasSubL scanLit
  cases htl : tryLit lit (fun r => some r) (c :: cs) with
  | some r => simp
  | none => simpa [hasSubL] using h

/-- If the literal occurs nowhere, the scan fails (for any suffix
matcher). -/
theorem scanLit_of_not_sub (lit : List Char)
    (after : List Char → Option (List Char)) (l : List Char)
    (h : hasSubL lit l = false) : scanLit lit after l = none := by
  induction l with
  | nil =>
    cases lit with
    | nil => simp [hasSubL, scanLit, tryLit, litPre] at h
    | cons a as => simp [scanLit, tryLit, litPre]
  | cons c cs ih =>
    cases hp : litPre lit (c :: cs) with
    | true => rw [hasSubL_of_litPre lit _ hp] at h; exact absurd h (by simp)
    | false =>
      have htry : ∀ af : List Char → Option (List Char),
          tryLit lit af (c :: cs) = none := by
        intro af; unfold tryLit; rw [hp]; rfl
      have hcs : hasSubL lit cs = false := by
        cases hcs' : hasSubL lit cs with
        | true => rw [hasSubL_cons_of lit c cs hcs'] at h; exact absurd h (by simp)
        | false => rfl
      show (match tryLit lit after (c :: cs) with
            | some r => some r
            | none => scanLit lit after cs) = none
      rw [htry after]
      exact ih hcs

/-- Leftmost-match law: if the literal occurs first at the marked
position (it is not a substring of `pre` glued to the start of the
literal itself) and the suffix matcher accepts the tail, the scan finds
exactly that match. -/
theorem scanLit_at_first (lit : List Char) (after : List Char → Option (List Char))
    (tail v : List Char) (hne : lit ≠ []) :
    ∀ pre : List Char, hasSubL lit (pre ++ lit.dropLast) = false →
      after tail = some v →
      scanLit lit after (pre ++ lit ++ tail) = some v := by
  intro pre
  induction pre with
  | nil =>
    intro _ hafter
    obtain ⟨a, as, rfl⟩ : ∃ a as, lit = a :: as := by
      cases lit with
      | nil => exact absurd rfl hne
      | cons a as => exact ⟨a, as, rfl⟩
    show scanLit (a :: as) after (([] : List Char) ++ (a :: as) ++ tail) = some v
    simp only [List.nil_append]
    have h1 : tryLit (a :: as) after ((a :: as) ++ tail) = some v := by
      unfold tryLit
      rw [litPre_append_self]
      simp only [if_true]
      rw [List.drop_left]
      exact hafter
    show (match tryLit (a :: as) after (a :: (as ++ tail)) with
          | some r => some r
          | none => scanLit (a :: as) after (as ++ tail)) = some v
    rw [show a :: (as ++ tail) = (a :: as) ++ tail from rfl, h1]
  | cons p ps ih =>
    intro hfirst hafter
    have hPfx : litPre lit (p :: (ps ++ lit ++ tail)) = false := by
      cases hcon : litPre lit (p :: (ps ++ lit ++ tail)) with
      | false => rfl
      | true =>
        exfalso
        obtain ⟨r, hr⟩ := (litPre_true_iff _ _).1 hcon
        have hlen : lit.length ≤ ((p :: ps) ++ lit.dropLast).length := by
          rw [List.length_append, List.length_dropLast, List.length_cons]
          have : 1 ≤ lit.length := by
            cases lit with
            | nil => exact absurd rfl hne
            | cons a as => simp
          omega
        have hsplit : p :: (ps ++ lit ++ tail)
            = ((p :: ps) ++ lit.dropLast) ++ (lit.getLast hne :: tail) := by
          have hlit : lit.dropLast ++ [lit.getLast hne] = lit :=
            List.dropLast_append_getLast hne
          calc p :: (ps ++ lit ++ tail)
              = (p :: ps) ++ ((lit.dropLast ++ [lit.getLast hne]) ++ tail) := by
                rw [hlit]; simp
            _ = ((p :: ps) ++ lit.dropLast) ++ (lit.getLast hne :: tail) := by
                simp
        have htake : ((p :: ps) ++ lit.dropLast).take lit.length = lit := by
          have h1 : (p :: (ps ++ lit ++ tail)).take lit.length = lit := by
            rw [← hr, List.take_left]
          rw [hsplit, List.take_append_of_le_length hlen] at h1
          exact h1
        have hlp : litPre lit ((p :: ps) ++ lit.dropLast) = true := by
          rw [litPre_true_iff]
          exact ⟨((p :: ps) ++ lit.dropLast).drop lit.length,
            by nth_rewrite 1 [← htake]; exact List.take_append_drop _ _⟩
        rw [hasSubL_of_litPre _ _ hlp] at hfirst
        exact absurd hfirst (by simp)
    have htry : tryLit lit after (p :: (ps ++ lit ++ tail)) = none := by
      unfold tryLit; rw [hPfx]; rfl
    have hfirst' : hasSubL lit (ps ++ lit.dropLast) = false := by
      cases hcs : hasSubL lit (ps ++ lit.dropLast) with
      | false => rfl
      | true =>
        have := hasSubL_cons_of lit p _ hcs
        rw [show p :: (ps ++ lit.dropLast) = (p :: ps) ++ lit.dropLast from rfl] at this
        rw [this] at hfirst
        exact absurd hfirst (by simp)
    show scanLit lit after ((p :: ps) ++ lit ++ tail) = some v
    rw [show (p :: ps) ++ lit ++ tail = p :: (ps ++ lit ++ tail) from rfl]
    show (match tryLit lit after (p :: (ps ++ lit ++ tail)) with
          | some r => some r
          | none => scanLit lit after (ps ++ lit ++ tail)) = some v
    rw [htry]
    exact ih hfirst' hafter

end AutoLMS

namespace AutoLMS

/-! ## Small list lemmas -/

/-- `isEmpty` distributes over append. -/
theorem append_isEmpty (l m : List Char) : (l ++ m).isEmpty = (l.isEmpty && m.isEmpty) := by
  cases l <;> simp

/-- Keys after a `dictInsert` are the inserted key or an existing key. -/
theorem dictInsert_keys_sub {α : Type} (d : List (String × α)) (k : String) (v : α) :
    ∀ k' ∈ (dictInsert d k v).map Prod.fst, k' = k ∨ k' ∈ d.map Prod.fst := by
  induction d with
  | nil =>
    intro k' h
    simp [dictInsert] at h
    exact Or.inl h
  | cons p rest ih =>
    obtain ⟨pk, pv⟩ := p
    intro k' h
    by_cases hpk : (pk == k) = true
    · rw [show dictInsert ((pk, pv) :: rest) k v = (k, v) :: rest from by
        simp [dictInsert, hpk]] at h
      simp only [List.map_cons, List.mem_cons] at h
      rcases h with rfl | h1
      · exact Or.inl rfl
      · exact Or.inr (by simp only [List.map_cons, List.mem_cons]; exact Or.inr h1)
    · rw [show dictInsert ((pk, pv) :: rest) k v = (pk, pv) :: dictInsert rest k v from by
        simp [dictInsert, hpk]] at h
      simp only [List.map_cons, List.mem_cons] at h
      rcases h with rfl | h1
      · exact Or.inr (by simp)
      · rcases ih k' h1 with h2 | h2
        · exact Or.inl h2
        · exact Or.inr (by simp only [List.map_cons, List.mem_cons]; exact Or.inr h2)

/-- A successful assoc-list lookup returns one of the stored values. -/
theorem lookup_mem_values {α : Type} : ∀ (l : List (String × α)) (k : String) (v : α),
    l.lookup k = some v → v ∈ l.map Prod.snd := by
  intro l
  induction l with
  | nil => intro k v h; simp [List.lookup] at h
  | cons p rest ih =>
    intro k v h
    obtain ⟨pk, pv⟩ := p
    cases hak : (k == pk) with
    | true =>
      simp only [List.lookup, hak] at h
      cases h
      simp
    | false =>
      simp only [List.lookup, hak] at h
      exact List.mem_cons_of_mem _ (ih k v h)

/-! ## C1 -/

/-- C1: Every public extraction function of `EclassParser`
(`parse_courses`, `parse_course_menus`, `parse_syllabus`,
`parse_notice_list`, `parse_notice_detail`, `parse_material_list`,
`parse_material_detail`, `parse_assignment_list`,
`parse_assignment_detail`) is total: for every input document (every
parse of any input string, including empty or malformed HTML) — and for
`parse_material_detail` any session behaviour, including a raising one —
the function returns normally (`Except.ok`), never propagating an
exception to the caller; the whole-body `try/except` converts any raised
error into the empty default. -/
theorem C1_extraction_total :
    (∀ soup : Forest, ∃ r, EclassParser.parse_courses soup = .ok r) ∧
    (∀ soup : Forest, ∃ r, EclassParser.parse_course_menus soup = .ok r) ∧
    (∀ soup : Forest, ∃ r, EclassParser.parse_syllabus soup = .ok r) ∧
    (∀ soup : Forest, ∃ r, EclassParser.parse_notice_list soup = .ok r) ∧
    (∀ doc : Doc, ∃ r, EclassParser.parse_notice_detail doc = .ok r) ∧
    (∀ soup : Forest, ∃ r, EclassParser.parse_material_list soup = .ok r) ∧
    (∀ (session : EclassParser.MdSession) (soup : Forest) (course_id : String),
      ∃ r, EclassParser.parse_material_detail session soup course_id = .ok r) ∧
    (∀ soup : Forest, ∃ r, EclassParser.parse_assignment_list soup = .ok r) ∧
    (∀ soup : Forest, ∃ r, EclassParser.parse_assignment_detail soup = .ok r) := by
  refine ⟨?_, ?_, ?_, ?_, ?_, ?_, ?_, ?_, ?_⟩ <;> intros <;> exact pyTry_isOk _ _

/-! ## C4 -/

/-- C4: For every input, `parse_assignment_detail` returns the empty
dictionary: with a `bbsview` table present the content is computed but
the call `self._extract_attachments(soup)` omits the required
`content_seq` argument, raising a `TypeError` that the enclosing handler
swallows, discarding the extracted content; without the table the
dictionary is never filled.  So no input yields content or attachments. -/
theorem C4_assignment_detail_always_empty :
    ∀ soup : Forest, EclassParser.parse_assignment_detail soup = .ok ⟨none, []⟩ := by
  intro soup
  unfold EclassParser.parse_assignment_detail EclassParser.assignmentDetailBody
  cases h : findTop soup EclassParser.isBbsviewTable <;> simp [pyTry, h]

/-! ## C9 -/

/-- Keys produced by the `_get_specific_menus` loop come from the fixed
mapping's values or from the starting accumulator. -/
theorem menusGo_keys : ∀ (items : List Node) (acc m : List (String × MenuEntry)),
    EclassParser.menusGo items acc = .ok m →
    ∀ k ∈ m.map Prod.fst,
      k ∈ EclassParser.menuMapping.map Prod.snd ∨ k ∈ acc.map Prod.fst := by
  intro items
  induction items with
  | nil =>
    intro acc m hok k hk
    have hacc : acc = m := by simpa [EclassParser.menusGo] using hok
    exact Or.inr (hacc ▸ hk)
  | cons item rest ih =>
    intro acc m hok k hk
    unfold EclassParser.menusGo at hok
    cases hlk : EclassParser.menuMapping.lookup (item.attrD ("id") "") with
    | none => simp only [hlk] at hok; exact ih acc m hok k hk
    | some key =>
      simp only [hlk] at hok
      cases hfd : item.findD (fun n => n.tagIs ("a")) with
      | none => simp only [hfd] at hok; exact ih acc m hok k hk
      | some link =>
        simp only [hfd] at hok
        cases hhr : link.attr ("href") with
        | none => simp only [hhr] at hok; exact absurd hok (by simp)
        | some u =>
          simp only [hhr] at hok
          rcases ih _ m hok k hk with h | h
          · exact Or.inl h
          · rcases dictInsert_keys_sub acc key _ k h with rfl | h2
            · exact Or.inl (lookup_mem_values _ _ _ hlk)
            · exact Or.inr h2

/-- C9: The key set of `parse_course_menus` is contained in the fixed
closed set of eight category names; an unknown menu-item id contributes
nothing and an absent category is just a missing key. -/
theorem C9_menu_keys_closed :
    ∀ (soup : Forest) (m : List (String × MenuEntry)),
      EclassParser.parse_course_menus soup = .ok m →
      ∀ k ∈ m.map Prod.fst,
        k ∈ [("plan" : String), ("online_lecture" : String), ("notice" : String),
             ("lecture_material" : String), ("attendance" : String),
             ("assignment" : String), ("team_project" : String), ("exam" : String)] := by
  intro soup m hok k hk
  unfold EclassParser.parse_course_menus at hok
  cases hb : EclassParser.get_specific_menus soup with
  | error e =>
    rw [hb] at hok
    simp only [pyTry] at hok
    cases hok
    simp at hk
  | ok m' =>
    rw [hb] at hok
    simp only [pyTry] at hok
    cases hok
    unfold EclassParser.get_specific_menus at hb
    rcases menusGo_keys _ _ _ hb k hk with h | h
    · exact (show EclassParser.menuMapping.map Prod.snd
        = [("plan" : String), ("online_lecture" : String), ("notice" : String),
           ("lecture_material" : String), ("attendance" : String),
           ("assignment" : String), ("team_project" : String), ("exam" : String)] from rfl) ▸ h
    · simp at h

/-- A recognised menu item with a `href`-less first anchor. -/
def badMenuItem (n : Node) : Bool :=
  (EclassParser.menuMapping.lookup (n.attrD ("id") "")).isSome &&
    (match n.findD (fun m => m.tagIs ("a")) with
     | some link => (link.attr ("href")).isNone
     | none => false)

/-- C9 witness: a document with one `st_notice` menu item yields the key
`notice`, which the theorem places inside the closed set. -/
def c9Item : Node :=
  Node.elem ("li")
    [(("id" : String), ("st_notice" : String)),
     (("class" : String), ("course_menu_item" : String))]
    (forest [Node.elem ("a") [(("href" : String), ("/notice" : String))]
      (forest [Node.text ("공지사항")])])

/-- The single-item menu document for the C9 witness. -/
def c9Doc : Forest := forest [c9Item]

/-- Witness for C9 at a concrete document. -/
theorem C9_menu_keys_closed_witness :
    ("notice" : String) ∈
      [("plan" : String), ("online_lecture" : String), ("notice" : String),
       ("lecture_material" : String), ("attendance" : String),
       ("assignment" : String), ("team_project" : String), ("exam" : String)] :=
  C9_menu_keys_closed c9Doc
    [(("notice" : String), ⟨"공지사항", "/notice"⟩)] rfl ("notice") (by simp)

/-! ## C10 -/

/-- If some item of the menu list is bad, the `_get_specific_menus` loop
raises `KeyError` (whatever has been accumulated so far). -/
theorem menusGo_error : ∀ (items : List Node) (acc : List (String × MenuEntry)),
    (∃ it ∈ items, badMenuItem it = true) →
    EclassParser.menusGo items acc = .error .keyError := by
  intro items
  induction items with
  | nil =>
    rintro acc ⟨it, hmem, _⟩
    exact absurd hmem (List.not_mem_nil it)
  | cons item rest ih =>
    rintro acc ⟨it, hmem, hbad⟩
    rcases List.mem_cons.1 hmem with rfl | hmem'
    · unfold EclassParser.menusGo
      simp only [badMenuItem, Bool.and_eq_true] at hbad
      obtain ⟨hlk, hanch⟩ := hbad
      obtain ⟨key, hkey⟩ := Option.isSome_iff_exists.1 hlk
      simp only [hkey]
      cases hfd : it.findD (fun m => m.tagIs ("a")) with
      | none => simp only [hfd] at hanch; exact absurd hanch (by simp)
      | some link =>
        simp only [hfd] at hanch
        cases hhr : link.attr ("href") with
        | some u => rw [hhr] at hanch; simp at hanch
        | none => simp only [hhr]
    · unfold EclassParser.menusGo
      cases hlk : EclassParser.menuMapping.lookup (item.attrD ("id") "") with
      | none => simp only [hlk]; exact ih acc ⟨it, hmem', hbad⟩
      | some key =>
        simp only [hlk]
        cases hfd : item.findD (fun n => n.tagIs ("a")) with
        | none => simp only [hfd]; exact ih acc ⟨it, hmem', hbad⟩
        | some link =>
          simp only [hfd]
          cases hhr : link.attr ("href") with
          | none => simp only [hhr]
          | some u => simp only [hhr]; exact ih _ ⟨it, hmem', hbad⟩

/-- C10: If any recognised menu item contains a first anchor lacking
`href`, the `KeyError` from `link['href']` is caught only at
whole-document level: `parse_course_menus` returns the empty map and all
entries matched earlier in the same document are discarded. -/
theorem C10_menu_item_failure_not_isolated :
    ∀ soup : Forest,
      (∃ item ∈ findAllTop soup EclassParser.isMenuItem, badMenuItem item = true) →
      EclassParser.parse_course_menus soup = .ok [] := by
  intro soup h
  unfold EclassParser.parse_course_menus EclassParser.get_specific_menus
  rw [menusGo_error _ _ h]
  rfl

/-- A good `st_plan` item matched before the bad one (C10 witness). -/
def c10Good : Node :=
  Node.elem ("li")
    [(("id" : String), ("st_plan" : String)),
     (("class" : String), ("course_menu_item" : String))]
    (forest [Node.elem ("a") [(("href" : String), ("/plan" : String))]
      (forest [Node.text ("강의계획서")])])

/-- A recognised `st_notice` item whose anchor has no `href` (C10 witness). -/
def c10Bad : Node :=
  Node.elem ("li")
    [(("id" : String), ("st_notice" : String)),
     (("class" : String), ("course_menu_item" : String))]
    (forest [Node.elem ("a") [] (forest [Node.text ("공지사항")])])

/-- The two-item menu document for the C10 witness. -/
def c10Doc : Forest := forest [c10Good, c10Bad]

/-- Witness for C10: the earlier good `st_plan` entry is discarded. -/
theorem C10_menu_item_failure_not_isolated_witness :
    EclassParser.parse_course_menus c10Doc = .ok [] :=
  C10_menu_item_failure_not_isolated c10Doc
    ⟨c10Bad,
      (show c10Bad ∈ findAllTop c10Doc EclassParser.isMenuItem from
        List.mem_cons_of_mem _ (List.mem_cons_self _ _)),
      by decide⟩

end AutoLMS

namespace AutoLMS

/-! ## C2 -/

/-- `re.search(key + r"(\d+)", s)` captures exactly the digit run standing
at the first occurrence of the key. -/
theorem searchParamDigits_at (key s : String) (u1 ds u2 : List Char)
    (hkne : key.data ≠ [])
    (hdata : s.data = u1 ++ key.data ++ ds ++ u2)
    (hfirst : hasSubL key.data (u1 ++ key.data.dropLast) = false)
    (hne : ds.isEmpty = false) (hdig : ds.all Char.isDigit = true)
    (hhead : headFails Char.isDigit u2 = true) :
    searchParamDigits key s = some (⟨ds⟩ : String) := by
  unfold searchParamDigits
  rw [hdata]
  have hafter : afterDigits (ds ++ u2) = some ds := by
    unfold afterDigits
    rw [takeWhile_append_eq Char.isDigit ds u2 hdig hhead]
    simp [hne]
  rw [show u1 ++ key.data ++ ds ++ u2 = u1 ++ key.data ++ (ds ++ u2) by
    simp [List.append_assoc]]
  rw [scanLit_at_first key.data afterDigits (ds ++ u2) ds hkne u1 hfirst hafter]
  rfl

/-- The notice/assignment `pageMove\('([^']+)'\)` search captures exactly
the single-quoted url at the first `pageMove('` occurrence. -/
theorem searchPageMoveClose_at (s : String) (pre url post : List Char)
    (hdata : s.data = pre ++ pmChars ++ url ++ [qc, ')'] ++ post)
    (hfirst : hasSubL pmChars (pre ++ pmChars.dropLast) = false)
    (hq : url.all (fun c => c != qc) = true)
    (hne : url.isEmpty = false) :
    searchPageMoveClose s = some (⟨url⟩ : String) := by
  unfold searchPageMoveClose
  rw [hdata]
  have hafter : afterQuoteRunClose (url ++ ([qc, ')'] ++ post)) = some url := by
    unfold afterQuoteRunClose
    have hhead : headFails (fun c => c != qc) ([qc, ')'] ++ post) = true := by
      show (!(qc != qc)) = true
      decide
    rw [takeWhile_append_eq (fun c => c != qc) url ([qc, ')'] ++ post) hq hhead]
    rw [List.drop_left]
    have hlp : litPre [qc, ')'] ([qc, ')'] ++ post) = true := litPre_append_self _ _
    simp [hne]
    exact hlp
  rw [show pre ++ pmChars ++ url ++ [qc, ')'] ++ post
      = pre ++ pmChars ++ (url ++ ([qc, ')'] ++ post)) by simp [List.append_assoc]]
  rw [scanLit_at_first pmChars afterQuoteRunClose (url ++ ([qc, ')'] ++ post)) url
    (by decide) pre hfirst hafter]
  rfl

/-- Lines 196–205: from an onclick embedding a single-quoted `pageMove`
url that carries `ARTL_NUM=<digits>`, the extracted pair is exactly
(the digits, the base-prefixed url). -/
theorem noticeExtractOnclick_at (onclick : String) (pre url post u1 ds u2 : List Char)
    (honc : onclick.data = pre ++ pmChars ++ url ++ [qc, ')'] ++ post)
    (hpm : hasSubL pmChars (pre ++ pmChars.dropLast) = false)
    (hq : url.all (fun c => c != qc) = true)
    (hurl : url = u1 ++ ("ARTL_NUM=").data ++ ds ++ u2)
    (hartl : hasSubL (("ARTL_NUM=").data) (u1 ++ (("ARTL_NUM=").data).dropLast) = false)
    (hne : ds.isEmpty = false) (hdig : ds.all Char.isDigit = true)
    (hhead : headFails Char.isDigit u2 = true) :
    EclassParser.noticeExtractOnclick onclick
      = (some (⟨ds⟩ : String), (⟨(EclassParser.baseUrl).data ++ url⟩ : String)) := by
  have hurlne : url.isEmpty = false := by
    rw [hurl]
    simp only [append_isEmpty]
    have : (("ARTL_NUM=").data).isEmpty = false := by decide
    simp [this]
  have hoe : onclick.data.isEmpty = false := by
    rw [honc]
    simp only [append_isEmpty]
    have : pmChars.isEmpty = false := by decide
    simp [this]
  have hsp : searchPageMoveClose onclick = some (⟨url⟩ : String) :=
    searchPageMoveClose_at onclick pre url post honc hpm hq hurlne
  have hart : searchParamDigits ("ARTL_NUM=") (⟨url⟩ : String) = some (⟨ds⟩ : String) :=
    searchParamDigits_at ("ARTL_NUM=") (⟨url⟩ : String) u1 ds u2 (by decide)
      (by rw [hurl]) hartl hne hdig hhead
  unfold EclassParser.noticeExtractOnclick
  simp only [hoe, Bool.false_eq_true, if_false, hsp, hart]
  rfl

/-- C2: For every notice row whose title cell's onclick embeds a
`pageMove` call (single-quoted, as the portal emits) whose url carries
`ARTL_NUM=<digits>`, the parsed notice's `article_id` is exactly that
digit string and its url the base-prefixed embedded url, whatever other
attributes surround the cell (the extraction consumes only the onclick
value); `_extract_article_id` (assignment rows) yields exactly the
digits of `ARTL_NUM`, and accepts `NORCT_NUM=<digits>` as the
alternative parameter when no `ARTL_NUM` is present. -/
theorem C2_article_id_exact :
    (∀ (row cell : Node) (onclick : String) (pre url post u1 ds u2 : List Char),
      EclassParser.selectTdLeft row = some cell →
      cell.attr ("onclick") = some onclick →
      onclick.data = pre ++ pmChars ++ url ++ [qc, ')'] ++ post →
      hasSubL pmChars (pre ++ pmChars.dropLast) = false →
      url.all (fun c => c != qc) = true →
      url = u1 ++ ("ARTL_NUM=").data ++ ds ++ u2 →
      hasSubL (("ARTL_NUM=").data) (u1 ++ (("ARTL_NUM=").data).dropLast) = false →
      ds.isEmpty = false → ds.all Char.isDigit = true →
      headFails Char.isDigit u2 = true →
      ∀ n : Notice, EclassParser.noticeRowContribution row = some n →
        n.article_id = some (⟨ds⟩ : String) ∧
        n.url = (⟨(EclassParser.baseUrl).data ++ url⟩ : String)) ∧
    (∀ (url : String) (u1 ds u2 : List Char),
      url.data = u1 ++ ("ARTL_NUM=").data ++ ds ++ u2 →
      hasSubL (("ARTL_NUM=").data) (u1 ++ (("ARTL_NUM=").data).dropLast) = false →
      ds.isEmpty = false → ds.all Char.isDigit = true →
      headFails Char.isDigit u2 = true →
      EclassParser.extract_article_id url = some (⟨ds⟩ : String)) ∧
    (∀ (url : String) (u1 ds u2 : List Char),
      url.data = u1 ++ ("NORCT_NUM=").data ++ ds ++ u2 →
      hasSubL (("ARTL_NUM=").data) url.data = false →
      hasSubL (("NORCT_NUM=").data) (u1 ++ (("NORCT_NUM=").data).dropLast) = false →
      ds.isEmpty = false → ds.all Char.isDigit = true →
      headFails Char.isDigit u2 = true →
      EclassParser.extract_article_id url = some (⟨ds⟩ : String)) := by
  refine ⟨?_, ?_, ?_⟩
  · intro row cell onclick pre url post u1 ds u2 hcell hattr honc hpm hq hurl hartl hne hdig hhead
    have hAd : cell.attrD ("onclick") "" = onclick := by
      unfold Node.attrD
      rw [hattr]
      rfl
    have hx := noticeExtractOnclick_at onclick pre url post u1 ds u2 honc hpm hq hurl hartl
      hne hdig hhead
    intro n hn
    cases hpr : EclassParser.parseNoticeRow row with
    | error e =>
      unfold EclassParser.noticeRowContribution at hn
      rw [hpr] at hn
      simp at hn
    | ok o =>
      unfold EclassParser.noticeRowContribution at hn
      rw [hpr] at hn
      simp only [] at hn
      unfold EclassParser.parseNoticeRow at hpr
      simp only [hcell, hAd, hx] at hpr
      split at hpr
      · split at hpr
        · exact absurd hpr (by simp)
        · injection hpr with ho
          subst ho
          injection hn with hn2
          subst hn2
          exact ⟨rfl, rfl⟩
      · injection hpr with ho
        subst ho
        simp at hn
  · intro url u1 ds u2 hdata hartl hne hdig hhead
    have hurlne : url.data.isEmpty = false := by
      rw [hdata]
      simp only [append_isEmpty]
      have : (("ARTL_NUM=").data).isEmpty = false := by decide
      simp [this]
    unfold EclassParser.extract_article_id
    simp only [hurlne, Bool.false_eq_true, if_false]
    rw [searchParamDigits_at ("ARTL_NUM=") url u1 ds u2 (by decide) hdata hartl hne hdig hhead]
  · intro url u1 ds u2 hdata hnoartl hnorct hne hdig hhead
    have hurlne : url.data.isEmpty = false := by
      rw [hdata]
      simp only [append_isEmpty]
      have : (("NORCT_NUM=").data).isEmpty = false := by decide
      simp [this]
    have hartlnone : searchParamDigits ("ARTL_NUM=") url = none := by
      unfold searchParamDigits
      rw [scanLit_of_not_sub (("ARTL_NUM=").data) afterDigits url.data hnoartl]
      rfl
    unfold EclassParser.extract_article_id
    simp only [hurlne, Bool.false_eq_true, if_false, hartlnone]
    rw [searchParamDigits_at ("NORCT_NUM=") url u1 ds u2 (by decide) hdata hnorct hne hdig hhead]

end AutoLMS

namespace AutoLMS

/-! ## Concrete notice rows shared by the C2/C3/C5 instances -/

/-- A `td.left` title cell with optional extra attributes (e.g. onclick),
a `subjt_top` title and a `subjt_bottom` author/views pair. -/
def mkLeftCell (extraAttrs : List (String × String)) (title author views : String) : Node :=
  Node.elem ("td") ((("class" : String), ("left" : String)) :: extraAttrs) (forest
    [ Node.elem ("div") [(("class" : String), ("subjt_top" : String))]
        (forest [Node.text title]),
      Node.elem ("div") [(("class" : String), ("subjt_bottom" : String))]
        (forest
          [ Node.elem ("span") [] (forest [Node.text author]),
            Node.elem ("span") [] (forest [Node.text views]) ]) ])

/-- A five-cell pointer row as produced by the notice list page. -/
def mkNoticeRow (num : String) (cell : Node) (date : String) : Node :=
  Node.elem ("tr") [(("style" : String), ("cursor: pointer;" : String))] (forest
    [ Node.elem ("td") [] (forest [Node.text num]),
      Node.elem ("td") [] (forest []),
      cell,
      Node.elem ("td") [] (forest []),
      Node.elem ("td") [] (forest [Node.text date]) ])

/-- C2 witness url pieces. -/
def c2U1 : List Char := ("/ilos/st/course/notice_view.acl?").data

/-- The witness article digits. -/
def c2Ds : List Char := ("123").data

/-- The witness query tail. -/
def c2U2 : List Char := ("&SCH_KEY=1").data

/-- The witness embedded url. -/
def c2UrlChars : List Char := c2U1 ++ ("ARTL_NUM=").data ++ c2Ds ++ c2U2

/-- The witness onclick prefix before the page-move call. -/
def c2Pre : List Char := ("javascript:").data

/-- The witness onclick attribute value. -/
def c2Onclick : String := ⟨c2Pre ++ pmChars ++ c2UrlChars ++ [qc, ')'] ++ []⟩

/-- The witness title cell (with onclick). -/
def c2Cell : Node := mkLeftCell [(("onclick" : String), c2Onclick)] ("T1") ("a1") ("조회 5")

/-- The witness notice row. -/
def c2Row : Node := mkNoticeRow ("1") c2Cell ("2025-01-01")

/-- What the parser extracts from `c2Row`. -/
def c2Notice : Notice :=
  { number := "1", article_id := some ("123"), title := "T1", author := "a1",
    date := "2025-01-01", views := 5,
    url := "https://eclass.seoultech.ac.kr/ilos/st/course/notice_view.acl?ARTL_NUM=123&SCH_KEY=1" }

/-- Witness for C2: the concrete row yields article id `"123"` and the
base-prefixed url; `_extract_article_id` resolves `ARTL_NUM` and the
`NORCT_NUM` alternative. -/
theorem C2_article_id_exact_witness :
    (c2Notice.article_id = some ("123" : String) ∧
      c2Notice.url =
        ("https://eclass.seoultech.ac.kr/ilos/st/course/notice_view.acl?ARTL_NUM=123&SCH_KEY=1" : String)) ∧
    EclassParser.extract_article_id ("https://x.example/view?ARTL_NUM=456") = some ("456" : String) ∧
    EclassParser.extract_article_id ("https://x.example/view?NORCT_NUM=789") = some ("789" : String) := by
  refine ⟨?_, ?_, ?_⟩
  · exact C2_article_id_exact.1 c2Row c2Cell c2Onclick c2Pre c2UrlChars [] c2U1 c2Ds c2U2
      rfl rfl rfl (by decide) (by decide) rfl (by decide) (by decide) (by decide) (by decide)
      c2Notice rfl
  · exact C2_article_id_exact.2.1 ("https://x.example/view?ARTL_NUM=456")
      (("https://x.example/view?").data) (("456").data) [] rfl (by decide) (by decide)
      (by decide) (by decide)
  · exact C2_article_id_exact.2.2 ("https://x.example/view?NORCT_NUM=789")
      (("https://x.example/view?").data) (("789").data) [] rfl (by decide) (by decide)
      (by decide) (by decide) (by decide)

/-! ## C5 -/

/-- C5: `parse_notice_list` returns the parsed entries in reverse document
order — rows `[A, B, C]` yield `[C', B', A']` — the reversal being the
explicit `notices.reverse()` step applied to the fully parsed list. -/
theorem C5_notice_list_reverse :
    ∀ (soup : Forest) (r1 r2 r3 : Node) (n1 n2 n3 : Notice),
      EclassParser.noticeRows soup = [r1, r2, r3] →
      EclassParser.parseNoticeRow r1 = .ok (some n1) →
      EclassParser.parseNoticeRow r2 = .ok (some n2) →
      EclassParser.parseNoticeRow r3 = .ok (some n3) →
      EclassParser.parse_notice_list soup = .ok [n3, n2, n1] := by
  intro soup r1 r2 r3 n1 n2 n3 hrows h1 h2 h3
  unfold EclassParser.parse_notice_list
  rw [hrows]
  simp [pyTry, EclassParser.noticeRowContribution, h1, h2, h3]

/-- The C5 witness rows. -/
def c5Row1 : Node := mkNoticeRow ("1") (mkLeftCell [] ("A") ("a") ("조회 1")) ("d1")

/-- Second C5 witness row. -/
def c5Row2 : Node := mkNoticeRow ("2") (mkLeftCell [] ("B") ("b") ("조회 2")) ("d2")

/-- Third C5 witness row. -/
def c5Row3 : Node := mkNoticeRow ("3") (mkLeftCell [] ("C") ("c") ("조회 3")) ("d3")

/-- The C5 witness document. -/
def c5Doc : Forest := forest [c5Row1, c5Row2, c5Row3]

/-- The notice parsed from `c5Row1`. -/
def c5N1 : Notice :=
  { number := "1", article_id := none, title := "A", author := "a",
    date := "d1", views := 1, url := "" }

/-- The notice parsed from `c5Row2`. -/
def c5N2 : Notice :=
  { number := "2", article_id := none, title := "B", author := "b",
    date := "d2", views := 2, url := "" }

/-- The notice parsed from `c5Row3`. -/
def c5N3 : Notice :=
  { number := "3", article_id := none, title := "C", author := "c",
    date := "d3", views := 3, url := "" }

/-- Witness for C5 on a concrete three-row document. -/
theorem C5_notice_list_reverse_witness :
    EclassParser.parse_notice_list c5Doc = .ok [c5N3, c5N2, c5N1] :=
  C5_notice_list_reverse c5Doc c5Row1 c5Row2 c5Row3 c5N1 c5N2 c5N3 rfl rfl rfl rfl

/-! ## C3 -/

/-- The C3 title cell: complete but with no onclick attribute. -/
def c3Cell : Node := mkLeftCell [] ("T") ("a") ("조회 7")

/-- The C3 notice row lacking any navigation attribute. -/
def c3Row : Node := mkNoticeRow ("1") c3Cell ("2025-01-02")

/-- The single-row document refuting C3 for `parse_notice_list`. -/
def c3Doc : Forest := forest [c3Row]

/-- What `parse_notice_list` actually returns for `c3Doc`. -/
def c3Notice : Notice :=
  { number := "1", article_id := none, title := "T", author := "a",
    date := "2025-01-02", views := 7, url := "" }

/-- C3 counterexample: a notice row whose title cell lacks an onclick
attribute is NOT excluded — `parse_notice_list` returns it with
`article_id = None` — refuting the claim for `parse_notice_list`. -/
theorem C3_counterexample_row_not_excluded :
    EclassParser.parse_notice_list c3Doc = .ok [c3Notice] ∧
    c3Notice.article_id = none ∧
    ([c3Notice] : List Notice) ≠ ([] : List Notice) :=
  ⟨rfl, rfl, by simp⟩

/-- C3 (amended): in `parse_material_list` a row with no `td.left`, or
whose onclick yields no resolvable article id, is excluded and raises
nothing; in `parse_notice_list` such a row raises nothing out of the
function, but is excluded only when the rest of the row fails to parse —
otherwise it is included with `article_id = None` and an empty url. -/
theorem C3_amended_row_exclusion :
    (∀ row : Node, EclassParser.selectTdLeft row = none →
      EclassParser.parseMaterialRow row = none) ∧
    (∀ (row cell : Node), EclassParser.selectTdLeft row = some cell →
      (EclassParser.materialExtractOnclick (cell.attrD ("onclick") "")).2 = none →
      EclassParser.parseMaterialRow row = none) ∧
    (∀ (row cell : Node), EclassParser.selectTdLeft row = some cell →
      cell.attr ("onclick") = none →
      EclassParser.noticeRowContribution row = none ∨
      ∃ n : Notice, EclassParser.noticeRowContribution row = some n ∧
        n.article_id = none ∧ n.url = "") := by
  refine ⟨?_, ?_, ?_⟩
  · intro row h
    unfold EclassParser.parseMaterialRow
    cases hp : EclassParser.isPinnedRow row <;> simp [hp, h]
  · intro row cell hcell h2
    unfold EclassParser.parseMaterialRow
    cases hp : EclassParser.isPinnedRow row with
    | true => simp [hp]
    | false =>
      rcases hmx : EclassParser.materialExtractOnclick (cell.attrD ("onclick") "") with ⟨durl, aid⟩
      rw [hmx] at h2
      simp only [] at h2
      subst h2
      simp [hp, hcell, hmx]
  · intro row cell hcell hnone
    have hAd : cell.attrD ("onclick") "" = "" := by
      unfold Node.attrD
      rw [hnone]
      rfl
    have hx : EclassParser.noticeExtractOnclick "" = (none, "") := rfl
    cases hpr : EclassParser.parseNoticeRow row with
    | error e =>
      left
      unfold EclassParser.noticeRowContribution
      rw [hpr]
    | ok o =>
      have hco : EclassParser.noticeRowContribution row = o := by
        unfold EclassParser.noticeRowContribution
        rw [hpr]
      unfold EclassParser.parseNoticeRow at hpr
      simp only [hcell, hAd, hx] at hpr
      split at hpr
      · split at hpr
        · exact absurd hpr (by simp)
        · injection hpr with ho
          subst ho
          right
          exact ⟨_, hco, rfl, rfl⟩
      · injection hpr with ho
        subst ho
        left
        exact hco
  
/-- A material row whose `td.left` has no onclick (C3 witness). -/
def c3MatCell : Node := Node.elem ("td") [(("class" : String), ("left" : String))] (forest [])

/-- The C3 material witness row. -/
def c3MatRow : Node :=
  Node.elem ("tr") [(("style" : String), ("cursor: pointer" : String))] (forest [c3MatCell])

/-- Witness for the amended C3 at concrete rows. -/
theorem C3_amended_row_exclusion_witness :
    EclassParser.parseMaterialRow c3MatRow = none ∧
    (EclassParser.noticeRowContribution c3Row = none ∨
      ∃ n : Notice, EclassParser.noticeRowContribution c3Row = some n ∧
        n.article_id = none ∧ n.url = "") :=
  ⟨C3_amended_row_exclusion.2.1 c3MatRow c3MatCell rfl rfl,
   C3_amended_row_exclusion.2.2 c3Row c3Cell rfl rfl⟩

end AutoLMS

namespace AutoLMS

/-! ## C6 -/

/-- `re.search(key + r"([^&]+)", s)` captures exactly the non-ampersand
run standing at the first occurrence of the key. -/
theorem searchNonAmp_at (key s : String) (u1 ds u2 : List Char)
    (hkne : key.data ≠ [])
    (hdata : s.data = u1 ++ key.data ++ ds ++ u2)
    (hfirst : hasSubL key.data (u1 ++ key.data.dropLast) = false)
    (hne : ds.isEmpty = false) (hns : ds.all (fun c => c != '&') = true)
    (hhead : headFails (fun c => c != '&') u2 = true) :
    searchNonAmp key s = some (⟨ds⟩ : String) := by
  unfold searchNonAmp
  rw [hdata]
  have hafter : afterNonAmp (ds ++ u2) = some ds := by
    unfold afterNonAmp
    rw [takeWhile_append_eq (fun c => c != '&') ds u2 hns hhead]
    simp [hne]
  rw [show u1 ++ key.data ++ ds ++ u2 = u1 ++ key.data ++ (ds ++ u2) by
    simp [List.append_assoc]]
  rw [scanLit_at_first key.data afterNonAmp (ds ++ u2) ds hkne u1 hfirst hafter]
  rfl

/-- C6: When the material detail page exposes a `CONTENT_SEQ` token and
the follow-up attachment-listing response holds exactly one download
anchor carrying `FILE_SEQ=<run>`, `parse_material_detail` returns exactly
one attachment with that `content_seq` and `file_seq`; when the token is
absent no request is made (the result is session-independent) and
attachments are omitted; download anchors without a resolvable
`FILE_SEQ` are skipped by `_extract_attachments`. -/
theorem C6_attachment_roundtrip :
    (∀ (session : EclassParser.MdSession) (soup resp : Forest) (course_id cs : String)
        (a : Node) (href : String) (h1 fs h2 : List Char),
      EclassParser.findContentSeqScript soup = some cs →
      session EclassParser.efileListUrl
        [(("ky" : String), course_id), (("pf_st_flag" : String), ("2" : String)),
         (("CONTENT_SEQ" : String), cs), (("encoding" : String), ("utf-8" : String))]
        = .ok (some resp) →
      EclassParser.downloadAnchors resp = [a] →
      a.attr ("href") = some href →
      href.data = h1 ++ ("FILE_SEQ=").data ++ fs ++ h2 →
      hasSubL (("FILE_SEQ=").data) (h1 ++ (("FILE_SEQ=").data).dropLast) = false →
      fs.isEmpty = false → fs.all (fun c => c != '&') = true →
      headFails (fun c => c != '&') h2 = true →
      ∃ r, EclassParser.parse_material_detail session soup course_id = .ok r ∧
        r.attachments.map (fun t => (t.content_seq, t.file_seq))
          = [(some cs, (⟨fs⟩ : String))]) ∧
    (∀ (s1 s2 : EclassParser.MdSession) (soup : Forest) (course_id : String),
      EclassParser.findContentSeqScript soup = none →
      EclassParser.parse_material_detail s1 soup course_id
        = EclassParser.parse_material_detail s2 soup course_id ∧
      ∃ r, EclassParser.parse_material_detail s1 soup course_id = .ok r ∧
        r.attachments = []) ∧
    (∀ (resp : Forest) (cs : Option String),
      (∀ a ∈ EclassParser.downloadAnchors resp,
        hasSubL (("FILE_SEQ=").data) (a.attrD ("href") "").data = false) →
      EclassParser.extract_attachments resp cs = []) := by
  refine ⟨?_, ?_, ?_⟩
  · intro session soup resp course_id cs a href h1 fs h2
    intro hcs hsession hanch hattr hdata hfirst hne hamp hhead
    have hAd : a.attrD ("href") "" = href := by
      unfold Node.attrD
      rw [hattr]
      rfl
    have hsa : searchNonAmp ("FILE_SEQ=") href = some (⟨fs⟩ : String) :=
      searchNonAmp_at ("FILE_SEQ=") href h1 fs h2 (by decide) hdata hfirst hne hamp hhead
    have hea : EclassParser.extract_attachments resp (some cs)
        = [⟨a.textStrip,
            (if pyStartsWith ("http") href then href else EclassParser.baseUrl ++ href),
            (⟨fs⟩ : String), some cs⟩] := by
      unfold EclassParser.extract_attachments
      rw [hanch]
      simp only [List.filterMap_cons, List.filterMap_nil, hAd, hsa]
    unfold EclassParser.parse_material_detail EclassParser.materialDetailBody
    simp only [hcs, hsession, hea, List.isEmpty_cons, Bool.false_eq_true, if_false, pyTry]
    exact ⟨_, rfl, rfl⟩
  · intro s1 s2 soup course_id hnone
    constructor
    · unfold EclassParser.parse_material_detail EclassParser.materialDetailBody
      simp only [hnone]
    · refine ⟨EclassParser.materialDetailBody s1 soup course_id, rfl, ?_⟩
      unfold EclassParser.materialDetailBody
      simp only [hnone]
      cases htv : findTop soup EclassParser.isTextviewerTd <;> simp [htv]
  · intro resp cs h
    unfold EclassParser.extract_attachments
    rw [List.filterMap_eq_nil_iff]
    intro a ha
    have hno := h a ha
    have hnone : searchNonAmp ("FILE_SEQ=") (a.attrD ("href") "") = none := by
      unfold searchNonAmp
      rw [scanLit_of_not_sub _ _ _ hno]
      rfl
    simp [hnone]

/-- The C6 witness inline script (single text child, so bs4 `.string`
returns it). -/
def c6Script : Node :=
  Node.elem ("script") [] (forest
    [Node.text ("eclassRoom.submit = go; CONTENT_SEQ : \"55\", KJKEY : \"c1\";")])

/-- The C6 witness detail-page document. -/
def c6Dom : Forest := forest [c6Script]

/-- The C6 witness href, written as its decomposition. -/
def c6Href : String :=
  ⟨("/ilos/co/efile_download.acl?").data ++ ("FILE_SEQ=").data ++ ("9").data
    ++ ("&CONTENT_SEQ=55").data⟩

/-- The single download anchor of the stubbed AJAX response. -/
def c6Anchor : Node :=
  Node.elem ("a") [(("href" : String), c6Href)] (forest [Node.text ("file.pdf")])

/-- The stubbed AJAX response document. -/
def c6Resp : Forest := forest [c6Anchor]

/-- The stubbed session: answers the attachment-listing endpoint with
`c6Resp`. -/
def c6Session : EclassParser.MdSession :=
  fun url _ => if url == EclassParser.efileListUrl then .ok (some c6Resp) else .ok none

/-- A response whose only download anchor has no `FILE_SEQ`. -/
def c6BadAnchor : Node :=
  Node.elem ("a") [(("href" : String), ("/ilos/co/efile_download.acl?x=1" : String))]
    (forest [Node.text ("x")])

/-- The bad-anchor response document. -/
def c6BadResp : Forest := forest [c6BadAnchor]

/-- Witness for C6 on the concrete round trip `55` / `9`. -/
theorem C6_attachment_roundtrip_witness :
    (∃ r, EclassParser.parse_material_detail c6Session c6Dom ("c1") = .ok r ∧
      r.attachments.map (fun t => (t.content_seq, t.file_seq))
        = [(some ("55" : String), ("9" : String))]) ∧
    EclassParser.parse_material_detail c6Session (forest []) ("c1")
      = EclassParser.parse_material_detail (fun _ _ => .ok none) (forest []) ("c1") ∧
    EclassParser.extract_attachments c6BadResp none = [] := by
  refine ⟨?_, ?_, ?_⟩
  · exact C6_attachment_roundtrip.1 c6Session c6Dom c6Resp ("c1") ("55") c6Anchor c6Href
      (("/ilos/co/efile_download.acl?").data) (("9").data) (("&CONTENT_SEQ=55").data)
      rfl rfl rfl rfl rfl (by decide) (by decide) (by decide) (by decide)
  · exact (C6_attachment_roundtrip.2.1 c6Session (fun _ _ => .ok none) (forest []) ("c1") rfl).1
  · refine C6_attachment_roundtrip.2.2 c6BadResp none ?_
    intro a ha
    rw [show EclassParser.downloadAnchors c6BadResp = [c6BadAnchor] from rfl] at ha
    rcases List.mem_singleton.1 ha with rfl
    decide

end AutoLMS

namespace AutoLMS

/-! ## C7 -/

/-- An entry produced by `weeklyRowEntry` has a nonempty week and
content. -/
theorem weeklyRowEntry_fields (row : Node) (e : WeekEntry)
    (h : EclassParser.weeklyRowEntry row = some e) :
    e.week.data.isEmpty = false ∧ e.content.data.isEmpty = false := by
  unfold EclassParser.weeklyRowEntry at h
  split at h
  · split at h
    · exact absurd h (by simp)
    · injection h with he
      subst he
      rename_i hcond
      rw [Bool.not_eq_true, Bool.or_eq_false_iff] at hcond
      exact ⟨hcond.1, hcond.2⟩
  · exact absurd h (by simp)

/-- The dedup loop: per-week lookup agrees with the first qualifying row
in document order, and weeks already in `seen` never appear. -/
theorem weeklyGo_find : ∀ (rows : List Node) (seen : List String) (w : String),
    (EclassParser.weeklyGo rows seen).find? (fun e => e.week == w)
      = if seen.contains w = true then none
        else (rows.filterMap EclassParser.weeklyRowEntry).find? (fun e => e.week == w) := by
  intro rows
  induction rows with
  | nil =>
    intro seen w
    by_cases h : seen.contains w = true
    · simp [EclassParser.weeklyGo, h]
    · simp [EclassParser.weeklyGo, h]
  | cons row rest ih =>
    intro seen w
    unfold EclassParser.weeklyGo
    rw [List.filterMap_cons]
    cases he : EclassParser.weeklyRowEntry row with
    | none => exact ih seen w
    | some e =>
      simp only []
      by_cases hsw : seen.contains e.week = true
      · rw [if_pos hsw]
        by_cases hw : seen.contains w = true
        · rw [ih seen w, if_pos hw, if_pos hw]
        · have hne : (e.week == w) = false := by
            rw [beq_eq_false_iff_ne]
            intro hcontra
            exact hw (hcontra ▸ hsw)
          rw [ih seen w, if_neg hw, if_neg hw, List.find?_cons_of_neg _ (by simp [hne])]
      · rw [if_neg hsw]
        by_cases hw : seen.contains w = true
        · have hne : (e.week == w) = false := by
            rw [beq_eq_false_iff_ne]
            intro hcontra
            exact hsw (hcontra ▸ hw)
          rw [if_pos hw, List.find?_cons_of_neg _ (by simp [hne]), ih (e.week :: seen) w,
            if_pos (by rw [List.contains_cons, hw]; simp)]
        · have hw' : seen.contains w = false := by
            cases h : seen.contains w
            · rfl
            · exact absurd h hw
          by_cases hew : (e.week == w) = true
          · rw [if_neg hw, List.find?_cons_of_pos _ (by simp [hew]),
              List.find?_cons_of_pos _ (by simp [hew])]
          · have hew' : (e.week == w) = false := by
              cases h : (e.week == w)
              · rfl
              · exact absurd h hew
            have hwe : (w == e.week) = false := by
              rw [beq_eq_false_iff_ne]
              intro hq
              rw [beq_eq_false_iff_ne] at hew'
              exact hew' hq.symm
            rw [if_neg hw, List.find?_cons_of_neg _ (by simp [hew']),
              List.find?_cons_of_neg _ (by simp [hew']), ih (e.week :: seen) w,
              if_neg (by rw [List.contains_cons, hwe, hw']; simp)]

/-- The dedup loop yields pairwise-distinct week labels, none of them in
`seen`. -/
theorem weeklyGo_nodup : ∀ (rows : List Node) (seen : List String),
    ((EclassParser.weeklyGo rows seen).map (fun e => e.week)).Nodup ∧
    (∀ w ∈ (EclassParser.weeklyGo rows seen).map (fun e => e.week),
      seen.contains w = false) := by
  intro rows
  induction rows with
  | nil => intro seen; simp [EclassParser.weeklyGo]
  | cons row rest ih =>
    intro seen
    unfold EclassParser.weeklyGo
    cases he : EclassParser.weeklyRowEntry row with
    | none => exact ih seen
    | some e =>
      simp only []
      by_cases hsw : seen.contains e.week = true
      · rw [if_pos hsw]
        exact ih seen
      · rw [if_neg hsw]
        have hsw' : seen.contains e.week = false := by
          cases h : seen.contains e.week
          · rfl
          · exact absurd h hsw
        simp only [List.map_cons]
        obtain ⟨ihn, ihs⟩ := ih (e.week :: seen)
        constructor
        · rw [List.nodup_cons]
          refine ⟨?_, ihn⟩
          intro hmem
          have h2 := ihs e.week hmem
          rw [List.contains_cons] at h2
          simp at h2
        · intro w hw
          rcases List.mem_cons.1 hw with rfl | hw'
          · exact hsw'
          · have h2 := ihs w hw'
            rw [List.contains_cons, Bool.or_eq_false_iff] at h2
            exact h2.2

/-- Every entry of the dedup loop has nonempty week and content. -/
theorem weeklyGo_entries : ∀ (rows : List Node) (seen : List String),
    ∀ e ∈ EclassParser.weeklyGo rows seen,
      e.week.data.isEmpty = false ∧ e.content.data.isEmpty = false := by
  intro rows
  induction rows with
  | nil => intro seen e he; simp [EclassParser.weeklyGo] at he
  | cons row rest ih =>
    intro seen e he
    unfold EclassParser.weeklyGo at he
    cases hre : EclassParser.weeklyRowEntry row with
    | none => rw [hre] at he; exact ih seen e he
    | some e' =>
      rw [hre] at he
      simp only [] at he
      by_cases hsw : seen.contains e'.week = true
      · rw [if_pos hsw] at he
        exact ih seen e he
      · rw [if_neg hsw] at he
        rcases List.mem_cons.1 he with rfl | he'
        · exact weeklyRowEntry_fields row e hre
        · exact ih _ e he'

/-- C7 (amended): within one `_extract_weekly_syllabus` pass (one matched
weekly-plan table, the seen-set starting empty) the produced entries have
pairwise-distinct week labels, rows with an empty week or content are
skipped, and the entry recorded for any week label is the first
qualifying row in document order (so a repeated `week="1"` contributes
once, from its first row).  At whole-document level `parse_syllabus` can
still emit duplicate labels when several weekly-plan section headers
match, because the seen-set is reset per table (see the counterexample). -/
theorem C7_amended_weekly_dedup :
    ∀ (table : Node) (w : String),
      ((EclassParser.extract_weekly_syllabus table []).map (fun e => e.week)).Nodup ∧
      (∀ e ∈ EclassParser.extract_weekly_syllabus table [],
        e.week.data.isEmpty = false ∧ e.content.data.isEmpty = false) ∧
      (EclassParser.extract_weekly_syllabus table []).find? (fun e => e.week == w)
        = (((table.findAllD (fun n => n.tagIs ("tr"))).drop 1).filterMap
            EclassParser.weeklyRowEntry).find? (fun e => e.week == w) := by
  intro table w
  unfold EclassParser.extract_weekly_syllabus
  simp only [List.nil_append]
  refine ⟨(weeklyGo_nodup _ []).1, weeklyGo_entries _ [], ?_⟩
  rw [weeklyGo_find _ [] w]
  rfl

/-- A weekly-plan section header div (C7 instances). -/
def c7Header : Node :=
  Node.elem ("div")
    [(("style" : String), ("padding-top: 10px; font-weight: bold" : String))]
    (forest [Node.text ("[주별강의계획]")])

/-- A one-data-row weekly table whose row is week 1 with the given
content. -/
def c7TableOf (c : String) : Node :=
  Node.elem ("table") [] (forest
    [ Node.elem ("tr") [] (forest []),
      Node.elem ("tr") [] (forest
        [ Node.elem ("td") [] (forest [Node.text ("1")]),
          Node.elem ("td") [] (forest [Node.text c]),
          Node.elem ("td") [] (forest []) ]) ])

/-- A syllabus document with two matched weekly-plan sections. -/
def c7Doc : Forest :=
  forest [c7Header, c7TableOf ("A"), c7Header, c7TableOf ("B")]

/-- What `parse_syllabus` returns on `c7Doc`: week `1` twice. -/
def c7Syl : Syllabus := ⟨[], [], [], [⟨"1", "A", ""⟩, ⟨"1", "B", ""⟩]⟩

/-- C7 counterexample: with two matched weekly-plan section headers the
seen-set is reset per table, so `parse_syllabus` emits the week label
`1` twice — refuting pairwise distinctness for every syllabus
document. -/
theorem C7_counterexample_duplicate_weeks :
    EclassParser.parse_syllabus c7Doc = .ok c7Syl ∧
    ¬ ((c7Syl.weekly.map (fun e => e.week)).Nodup) :=
  ⟨rfl, by decide⟩

/-- The concrete weekly table for the C7 witness: week 1 appears twice,
with different contents. -/
def c7DupTable : Node :=
  Node.elem ("table") [] (forest
    [ Node.elem ("tr") [] (forest []),
      Node.elem ("tr") [] (forest
        [ Node.elem ("td") [] (forest [Node.text ("1")]),
          Node.elem ("td") [] (forest [Node.text ("first")]),
          Node.elem ("td") [] (forest []) ]),
      Node.elem ("tr") [] (forest
        [ Node.elem ("td") [] (forest [Node.text ("1")]),
          Node.elem ("td") [] (forest [Node.text ("second")]),
          Node.elem ("td") [] (forest []) ]) ])

/-- The single entry kept from `c7DupTable` (the first week-1 row). -/
def c7DupEntry : WeekEntry := ⟨"1", "first", ""⟩

/-- Witness for the amended C7: one pass over a duplicate-week table
keeps exactly the first week-1 row. -/
theorem C7_amended_weekly_dedup_witness :
    ((EclassParser.extract_weekly_syllabus c7DupTable []).map (fun e => e.week)).Nodup ∧
    (c7DupEntry.week.data.isEmpty = false ∧ c7DupEntry.content.data.isEmpty = false) ∧
    (EclassParser.extract_weekly_syllabus c7DupTable []).find? (fun e => e.week == ("1" : String))
      = ((((c7DupTable.findAllD (fun n => n.tagIs ("tr"))).drop 1).filterMap
          EclassParser.weeklyRowEntry).find? (fun e => e.week == ("1" : String))) :=
  ⟨(C7_amended_weekly_dedup c7DupTable ("1")).1,
   (C7_amended_weekly_dedup c7DupTable ("1")).2.1 c7DupEntry
     (show c7DupEntry ∈ EclassParser.extract_weekly_syllabus c7DupTable [] from
       List.mem_cons_self _ _),
   (C7_amended_weekly_dedup c7DupTable ("1")).2.2⟩

/-! ## C8 -/

/-- The viewer cell content with an embedded `<br>` line break. -/
def c8Div : Node :=
  Node.elem ("div") [] (forest
    [Node.text ("hello"), Node.elem ("br") [] (forest []), Node.text ("world")])

/-- The C8 failing input: its raw text and its parse. -/
def c8Doc : Doc :=
  { raw := "<td class=\"textviewer\"><div>hello<br/>world</div></td>",
    dom := forest
      [Node.elem ("td") [(("class" : String), ("textviewer" : String))] (forest [c8Div])] }

/-- C8 evaluation at the failing input: the `<br>` is replaced by a
newline node, but `get_text(strip=True)` strips each string and drops the
now-whitespace-only node, so the returned content is `helloworld` — the
newline the claim requires is lost. -/
theorem C8_br_newline_lost :
    EclassParser.parse_notice_detail c8Doc = .ok ⟨some ("helloworld"), []⟩ ∧
    hasSub ("\n") ("helloworld") = false :=
  ⟨rfl, by decide⟩

end AutoLMS
